import Mathlib

/-!
# Commit-reveal rock-paper-scissors (`game/rps.go`)

A shallow embedding of `game/rps.go` and the properties of its commit-reveal
round protocol.

Conventions of the embedding:

* a Go `string` is its sequence of bytes, `List UInt8`;
* `Choice` and `Result` are Go `int`s (64-bit two's complement), embedded as
  `Int` with the wrap-around made explicit where arithmetic is done;
* `startGame` is embedded as a function of the random draws of the local
  player and of the frames that arrive on `appChannel`; it returns the
  counters, the trace of frames sent and received and of rounds scored, the
  frames left in the channel and the way the function ended; logging other
  than the score of a round and the pause between rounds are left out;
* `readMsg` is embedded as a function of the bytes of the inbound stream, which
  ends after them, and returns the strings pushed onto `appChannel`;
* `waitForOpponent` is embedded as a function of the snapshots of the peer
  directory, one per poll, with a bound on the iterations of its outer loop,
  which need not end; `Pretty` and `p2p.HARDCODED_BOOTSTRAP_NODE` are
  parameters;
* the Go standard-library functions called by the file (`sha256.Sum256`,
  `base64.URLEncoding.EncodeToString`, `strings.Split`, `strconv.Atoi`,
  `fmt.Sprintf`, `bufio.Reader.ReadString`) are embedded from their documented
  behaviour.
-/

namespace Rps

/-- A Go `string`: an immutable sequence of bytes. -/
abbrev GoString := List UInt8

/-- The bytes of an ASCII literal. -/
def ascii (s : String) : GoString := s.toList.map (fun c => UInt8.ofNat c.toNat)

/-! ## `crypto/sha256` (FIPS 180-4) -/

namespace Sha256

/-- Reduction of a natural number to a 32-bit word. -/
def word (x : Nat) : Nat := x % 4294967296

/-- Rotate a 32-bit word right by `n` bits. -/
def rotr (x n : Nat) : Nat := word ((x >>> n) ||| (x <<< (32 - n)))

/-- The 64 round constants. -/
def roundConstants : List Nat :=
  [0x428a2f98, 0x71374491, 0xb5c0fbcf, 0xe9b5dba5, 0x3956c25b, 0x59f111f1, 0x923f82a4, 0xab1c5ed5,
   0xd807aa98, 0x12835b01, 0x243185be, 0x550c7dc3, 0x72be5d74, 0x80deb1fe, 0x9bdc06a7, 0xc19bf174,
   0xe49b69c1, 0xefbe4786, 0x0fc19dc6, 0x240ca1cc, 0x2de92c6f, 0x4a7484aa, 0x5cb0a9dc, 0x76f988da,
   0x983e5152, 0xa831c66d, 0xb00327c8, 0xbf597fc7, 0xc6e00bf3, 0xd5a79147, 0x06ca6351, 0x14292967,
   0x27b70a85, 0x2e1b2138, 0x4d2c6dfc, 0x53380d13, 0x650a7354, 0x766a0abb, 0x81c2c92e, 0x92722c85,
   0xa2bfe8a1, 0xa81a664b, 0xc24b8b70, 0xc76c51a3, 0xd192e819, 0xd6990624, 0xf40e3585, 0x106aa070,
   0x19a4c116, 0x1e376c08, 0x2748774c, 0x34b0bcb5, 0x391c0cb3, 0x4ed8aa4a, 0x5b9cca4f, 0x682e6ff3,
   0x748f82ee, 0x78a5636f, 0x84c87814, 0x8cc70208, 0x90befffa, 0xa4506ceb, 0xbef9a3f7, 0xc67178f2]

/-- The initial hash value. -/
def initialHash : List Nat :=
  [0x6a09e667, 0xbb67ae85, 0x3c6ef372, 0xa54ff53a, 0x510e527f, 0x9b05688c, 0x1f83d9ab, 0x5be0cd19]

/-- Big-endian bytes of a 32-bit word. -/
def wordBytes (w : Nat) : List Nat :=
  [(w >>> 24) % 256, (w >>> 16) % 256, (w >>> 8) % 256, w % 256]

/-- Padding: the message, the byte `0x80`, zero bytes up to 56 modulo 64, and
the bit length as a 64-bit big-endian number. -/
def pad (msg : List Nat) : List Nat :=
  let bits := 8 * msg.length
  msg ++ [128] ++ List.replicate ((119 - msg.length % 64) % 64) 0
    ++ wordBytes (word (bits >>> 32)) ++ wordBytes (word bits)

/-- Big-endian 32-bit words of a byte sequence (four bytes per word). -/
def toWords : List Nat → List Nat
  | a :: b :: c :: d :: rest => (a <<< 24 ||| b <<< 16 ||| c <<< 8 ||| d) :: toWords rest
  | _ => []

/-- Split a word sequence in blocks of 16 words. -/
def blocks : Nat → List Nat → List (List Nat)
  | 0, _ => []
  | n + 1, ws => if ws.isEmpty then [] else ws.take 16 :: blocks n (ws.drop 16)

/-- One more word of the message schedule. -/
def extend (w : List Nat) (t : Nat) : List Nat :=
  let x15 := w.getD (t - 15) 0
  let x2 := w.getD (t - 2) 0
  let s0 := rotr x15 7 ^^^ rotr x15 18 ^^^ (x15 >>> 3)
  let s1 := rotr x2 17 ^^^ rotr x2 19 ^^^ (x2 >>> 10)
  w ++ [word (s1 + w.getD (t - 7) 0 + s0 + w.getD (t - 16) 0)]

/-- The 64-word message schedule of a block. -/
def schedule (block : List Nat) : List Nat :=
  (List.range 48).foldl (fun w i => extend w (i + 16)) block

/-- One round of the compression function on the working variables. -/
def round (v : List Nat) (kw : Nat × Nat) : List Nat :=
  match v with
  | [a, b, c, d, e, f, g, h] =>
    let s1 := rotr e 6 ^^^ rotr e 11 ^^^ rotr e 25
    let ch := (e &&& f) ^^^ ((e ^^^ 4294967295) &&& g)
    let t1 := h + s1 + ch + kw.1 + kw.2
    let s0 := rotr a 2 ^^^ rotr a 13 ^^^ rotr a 22
    let maj := (a &&& b) ^^^ (a &&& c) ^^^ (b &&& c)
    [word (t1 + s0 + maj), a, b, c, word (d + t1), e, f, g]
  | _ => v

/-- Compression of one block into the hash value. -/
def compress (h : List Nat) (block : List Nat) : List Nat :=
  List.zipWith (fun x y => word (x + y)) h
    ((roundConstants.zip (schedule block)).foldl round h)

/-- The digest of a byte sequence, as 32 byte values. -/
def digest (msg : List Nat) : List Nat :=
  let ws := toWords (pad msg)
  ((blocks ws.length ws).foldl compress initialHash).flatMap wordBytes

end Sha256

/-- Go `sha256.Sum256`. -/
def sum256 (data : GoString) : GoString :=
  (Sha256.digest (data.map UInt8.toNat)).map UInt8.ofNat

/-! ## `encoding/base64`, `URLEncoding` -/

/-- The character of a 6-bit value in the URL-safe alphabet
`A-Z a-z 0-9 - _`. -/
def base64Char (n : Nat) : UInt8 :=
  if n < 26 then UInt8.ofNat (65 + n)
  else if n < 52 then UInt8.ofNat (71 + n)
  else if n < 62 then UInt8.ofNat (n - 4)
  else if n = 62 then 45
  else 95

/-- Go `base64.URLEncoding.EncodeToString` on byte values: three bytes give
four characters, the last group is padded with `=`. -/
def base64Encode : List Nat → GoString
  | a :: b :: c :: rest =>
    base64Char (a / 4) :: base64Char (a % 4 * 16 + b / 16)
      :: base64Char (b % 16 * 4 + c / 64) :: base64Char (c % 64) :: base64Encode rest
  | [a, b] =>
    [base64Char (a / 4), base64Char (a % 4 * 16 + b / 16), base64Char (b % 16 * 4), 61]
  | [a] => [base64Char (a / 4), base64Char (a % 4 * 16), 61, 61]
  | [] => []

/-- Go `base64.URLEncoding.EncodeToString`. -/
def encodeToString (data : GoString) : GoString :=
  base64Encode (data.map UInt8.toNat)

/-! ## `strings`, `strconv`, `fmt` -/

/-- Go `strings.Split(s, sep)` for a one-byte separator: the substrings
between the separators, at least one. -/
def splitOn (sep : UInt8) : GoString → List GoString
  | [] => [[]]
  | b :: rest =>
    if b = sep then [] :: splitOn sep rest
    else
      match splitOn sep rest with
      | [] => [[b]]
      | field :: fields => (b :: field) :: fields

/-- Go `strconv.ParseUint(s, 10, 64)` after the emptiness test, with the
number read so far: the value and whether an error is returned. A byte that
is not a digit is a syntax error with value 0; a number above `2^64 - 1` is a
range error with value `2^64 - 1`, reported as soon as it is reached. -/
def parseUint (n : Nat) : GoString → Nat × Bool
  | [] => (n, false)
  | c :: rest =>
    if 48 ≤ c.toNat ∧ c.toNat ≤ 57 then
      if n * 10 + (c.toNat - 48) < 18446744073709551616 then
        parseUint (n * 10 + (c.toNat - 48)) rest
      else (18446744073709551615, true)
    else (0, true)

/-- The unsigned part of `strconv.ParseInt`: empty input is a syntax error. -/
def parseMagnitude (s : GoString) : Nat × Bool :=
  if s.isEmpty then (0, true) else parseUint 0 s

/-- Go `strconv.Atoi(s)` on a 64-bit platform: the `int` returned and whether
the error is non-nil. An optional sign and decimal digits; a syntax error
gives 0, a number out of range gives the nearest bound of `int`. -/
def Atoi (s : GoString) : Int × Bool :=
  match s with
  | [] => (0, true)
  | c :: rest =>
    let neg := c = 45
    let (un, err) := parseMagnitude (if c = 43 ∨ c = 45 then rest else s)
    if err ∧ un = 0 then (0, true)
    else if ¬ neg ∧ 9223372036854775808 ≤ un then (9223372036854775807, true)
    else if neg ∧ 9223372036854775808 < un then (-9223372036854775808, true)
    else (if neg then -(un : Int) else (un : Int), err)

/-- The decimal digits of a natural number. -/
def formatNat (n : Nat) : GoString :=
  (Nat.toDigits 10 n).map (fun c => UInt8.ofNat c.toNat)

/-- The verb `%d` of Go `fmt` on an `int`. -/
def formatInt (n : Int) : GoString :=
  if n < 0 then 45 :: formatNat n.natAbs else formatNat n.natAbs

/-! ## The game -/

/-- The Go type `Choice` (`type Choice int`). -/
abbrev Choice := Int

/-- The constant `Rock`. -/
def Rock : Choice := 0
/-- The constant `Paper`. -/
def Paper : Choice := 1
/-- The constant `Scissors`. -/
def Scissors : Choice := 2

/-- The Go type `Result` (`type Result int`). -/
abbrev Result := Int

/-- The constant `Draw`. -/
def Draw : Result := 0
/-- The constant `Win`. -/
def Win : Result := 1
/-- The constant `Lose`. -/
def Lose : Result := 2

/-- The constant `MAX_ROUNDS`. -/
def MAX_ROUNDS : Nat := 5

/-- The choices `generateChoice` can return: `Rock`, `Paper`, `Scissors`. -/
def Choice.valid (c : Choice) : Prop := c = Rock ∨ c = Paper ∨ c = Scissors

instance (c : Choice) : Decidable (Choice.valid c) := by
  unfold Choice.valid; infer_instance

/-- Wrap-around of 64-bit two's complement arithmetic. -/
def wrapInt (x : Int) : Int :=
  (x + 9223372036854775808) % 18446744073709551616 - 9223372036854775808

/-- The conversion `byte(choice)`: the low 8 bits of the integer. -/
def toByte (c : Choice) : UInt8 := UInt8.ofNat (c % 256).toNat

/-- The function `analyzeResult`; `-` wraps around and `%` is Go's
remainder, which truncates towards zero. -/
def analyzeResult (myChoice opponentChoice : Choice) : Result :=
  Int.tmod (wrapInt (Int.tmod (wrapInt (myChoice - opponentChoice)) 3 + 3)) 3

/-- The function `generateCommitment`. -/
def generateCommitment (salt : GoString) (choice : Choice) : GoString :=
  encodeToString (sum256 (salt ++ [toByte choice]))

/-- The function `checkCommitment`. -/
def checkCommitment (salt : GoString) (choice : Choice) (commitment : GoString) : Bool :=
  generateCommitment salt choice == commitment

/-- The reveal frame `fmt.Sprintf("%s,%d", salt, choice)`. -/
def revealFrame (salt : GoString) (choice : Choice) : GoString :=
  salt ++ 44 :: formatInt choice

/-- Lines 84-87 of `startGame`: split the reveal on `,`, take the first field
as the salt and `Atoi` of the second, its error dropped, as the choice.
`none` is the run-time panic of `s[1]` on a reveal without a comma. -/
def parseReveal (opponentChoiceMessage : GoString) : Option (GoString × Choice) :=
  match splitOn 44 opponentChoiceMessage with
  | opponentSalt :: field :: _ => some (opponentSalt, (Atoi field).1)
  | _ => none

/-- The value of the conversion `float32(n)` of a non-negative `int`: `n`
rounded to 24 significant bits, ties to even. The value is again an integer. -/
def toFloat32 (n : Nat) : Nat :=
  if n < 16777216 then n
  else
    let e := Nat.log2 n - 23
    let q := n >>> e
    let r := n % 2 ^ e
    let half := 2 ^ (e - 1)
    (if half < r ∨ (r = half ∧ q % 2 = 1) then q + 1 else q) <<< e

/-- How a call of `startGame` ends. -/
inductive Outcome
  /-- The loop ended and `You WIN!` (`Win`) or `You LOSE!` (`Lose`) was logged. -/
  | declared (result : Result)
  /-- The verification of the opponent's reveal failed and the function returned. -/
  | aborted
  /-- The reveal had no second field: `s[1]` is out of range. -/
  | panicked
  /-- The function waits on `appChannel` and no frame arrives any more. -/
  | blocked
  deriving DecidableEq

/-- What `startGame` does that can be observed from outside. -/
inductive Event
  /-- A frame given to `p2p.SendString`. -/
  | sent (frame : GoString)
  /-- A frame taken from `appChannel`. -/
  | received (frame : GoString)
  /-- The log line `Round [%d] -> You %s` of a round that was scored. -/
  | scored (round : Nat) (result : Result)
  deriving DecidableEq

/-- The state of `startGame` when it ends. -/
structure Run where
  /-- The way the function ended. -/
  outcome : Outcome
  /-- The variable `roundCount`. -/
  roundCount : Nat
  /-- The variable `winCount`. -/
  winCount : Nat
  /-- The events so far, oldest first. -/
  trace : List Event
  /-- The frames not taken from `appChannel`. -/
  pending : List GoString
  deriving DecidableEq

/-- Lines 106-110 of `startGame`: the final declaration. `MAX_ROUNDS/2` is a
division of integer constants. -/
def declare (winCount : Nat) : Result :=
  if toFloat32 winCount > toFloat32 (MAX_ROUNDS / 2) then Win else Lose

/-- The loop of `startGame` (lines 67-105) followed by the final declaration.
`draws i` is what `generateChoice` and `generateSalt` return in iteration `i`
of the loop, `inbox` the frames that arrive on `appChannel`, in order. -/
def gameLoop (draws : Nat → Choice × GoString) :
    List GoString → Nat → Nat → Nat → List Event → Run
  | inbox, iter, roundCount, winCount, trace =>
    if roundCount < MAX_ROUNDS then
      let choice := (draws iter).1
      let salt := (draws iter).2
      let commitment := generateCommitment salt choice
      match inbox with
      | [] => ⟨.blocked, roundCount, winCount, trace ++ [.sent commitment], []⟩
      | opponentCommitment :: inbox =>
        match inbox with
        | [] =>
          ⟨.blocked, roundCount, winCount,
            trace ++ [.sent commitment, .received opponentCommitment,
              .sent (revealFrame salt choice)], []⟩
        | opponentChoiceMessage :: rest =>
          let trace := trace ++ [.sent commitment, .received opponentCommitment,
            .sent (revealFrame salt choice), .received opponentChoiceMessage]
          match parseReveal opponentChoiceMessage with
          | none => ⟨.panicked, roundCount, winCount, trace, rest⟩
          | some (opponentSalt, opponentChoice) =>
            if !checkCommitment opponentSalt opponentChoice opponentCommitment then
              ⟨.aborted, roundCount, winCount, trace, rest⟩
            else
              let result := analyzeResult choice opponentChoice
              gameLoop draws rest (iter + 1)
                (if result ≠ Draw then roundCount + 1 else roundCount)
                (if result = Win then winCount + 1 else winCount)
                (trace ++ [.scored roundCount result])
    else ⟨.declared (declare winCount), roundCount, winCount, trace, inbox⟩

/-- The method `startGame`: both counters start at 0. -/
def startGame (draws : Nat → Choice × GoString) (inbox : List GoString) : Run :=
  gameLoop draws inbox 0 0 0 []

/-! ## Observations on a run -/

/-- The results of the rounds scored in a trace, oldest first. -/
def scoredResults : List Event → List Result
  | [] => []
  | .scored _ result :: rest => result :: scoredResults rest
  | .sent _ :: rest => scoredResults rest
  | .received _ :: rest => scoredResults rest

/-- The choice that lines 84-87 read from a reveal frame (`Rock` stands in
where `s[1]` panics). -/
def revealedChoice (opponentChoiceMessage : GoString) : Choice :=
  match parseReveal opponentChoiceMessage with
  | some (_, opponentChoice) => opponentChoice
  | none => Rock

/-- Lines 84-90 on the two frames of a round: the reveal has its two fields
and passes `checkCommitment` against the commitment frame. -/
def revealVerifies (opponentCommitment opponentChoiceMessage : GoString) : Bool :=
  match parseReveal opponentChoiceMessage with
  | some (opponentSalt, opponentChoice) =>
    checkCommitment opponentSalt opponentChoice opponentCommitment
  | none => false

/-- The frames of a sequence of rounds in the order of the channel: for each
round the commitment frame, then the reveal frame. -/
def roundFrames : List (GoString × GoString) → List GoString
  | [] => []
  | (opponentCommitment, opponentChoiceMessage) :: rest =>
    opponentCommitment :: opponentChoiceMessage :: roundFrames rest

/-- The results `analyzeResult` gives the local player, from iteration `iter`
on, against the choices revealed in `rounds`. -/
def roundResults (draws : Nat → Choice × GoString) (iter : Nat) :
    List (GoString × GoString) → List Result
  | [] => []
  | (_, opponentChoiceMessage) :: rest =>
    analyzeResult (draws iter).1 (revealedChoice opponentChoiceMessage)
      :: roundResults draws (iter + 1) rest

/-- The two frames an honest opponent sends in a round in which it draws
`(salt, choice)`. -/
def honestRound (draw : GoString × Choice) : GoString × GoString :=
  (generateCommitment draw.1 draw.2, revealFrame draw.1 draw.2)

/-- The frames an honest opponent sends, round after round, when its draws
are the pairs `(salt, choice)` of `script`. -/
def opponentFrames (script : List (GoString × Choice)) : List GoString :=
  roundFrames (script.map honestRound)

/-- The number of results that are not a Draw. -/
def nonDraws (results : List Result) : Nat := results.countP (fun r => r ≠ Draw)

/-- The number of results that are a Win. -/
def wins (results : List Result) : Nat := results.countP (fun r => r = Win)

/-- Draws that are the same in every iteration. -/
def constDraws (choice : Choice) (salt : GoString) : Nat → Choice × GoString :=
  fun _ => (choice, salt)

/-! ## `Result.String`, `readMsg`, `waitForOpponent`, `StartPlaying` -/

/-- The method `Result.String`: the element of `resultNames` at the index
`result`; `none` is the run-time panic of an index out of range. -/
def Result.String (result : Result) : Option GoString :=
  if 0 ≤ result then [ascii "Draw", ascii "Win", ascii "Lose"][result.toNat]? else none

/-- Go `bufio.Reader.ReadString` with the delimiter `\n` on the bytes still to
come, after which the stream ends: the bytes up to and including the first
newline, or all of them when there is none (then with the error `io.EOF`,
which `readMsg` drops), and the bytes left in the stream. -/
def readString : List UInt8 → GoString × List UInt8
  | [] => ([], [])
  | b :: rest =>
    if b = 10 then ([10], rest) else (b :: (readString rest).1, (readString rest).2)

/-- The loop of `readMsg` on the bytes of the stream: the strings pushed onto
`appChannel`, in order. `none` means that the loop has not returned after
`fuel` calls of `ReadString`. -/
def readLoop : Nat → List UInt8 → Option (List GoString)
  | 0, _ => none
  | fuel + 1, stream =>
    let str := (readString stream).1
    if str = [] then some []
    else if str ≠ [10] then
      (readLoop fuel (readString stream).2).map (fun pushed => str.dropLast :: pushed)
    else readLoop fuel (readString stream).2

/-- The function `readMsg` on a stream with the bytes `stream`; one call of
`ReadString` more than there are bytes is enough for the loop to return. -/
def readMsg (stream : List UInt8) : Option (List GoString) :=
  readLoop (stream.length + 1) stream

/-- What `waitForOpponent` reads from the host and from package `p2p`. -/
structure Host where
  /-- The identity `player.host.ID()`. -/
  ID : GoString
  /-- The method `Pretty` of `peer.ID`. -/
  Pretty : GoString → GoString
  /-- The constant `p2p.HARDCODED_BOOTSTRAP_NODE`. -/
  HARDCODED_BOOTSTRAP_NODE : GoString

/-- The local variable `timeoutTries` of `waitForOpponent`. -/
def timeoutTries : Nat := 150

/-- The condition of line 150 on a peer `v`:
`v != player.host.ID() && v.Pretty() != strings.Split(p2p.HARDCODED_BOOTSTRAP_NODE, "/")[6]`.
`none` is the run-time panic of the index 6 out of range. -/
def isCandidate (host : Host) (v : GoString) : Option Bool :=
  if v ≠ host.ID then
    match (splitOn 47 host.HARDCODED_BOOTSTRAP_NODE)[6]? with
    | some bootstrap => some (decide (host.Pretty v ≠ bootstrap))
    | none => none
  else some false

/-- How the loop over one snapshot of the peers ends (lines 148-158). -/
inductive Scan
  /-- The peer `opponent` passed the test, with `tryCount` as it was then. -/
  | found (opponent : GoString) (tryCount : Nat)
  /-- No peer passed the test; `tryCount` after the scan. -/
  | exhausted (tryCount : Nat)
  /-- The test panicked. -/
  | panicked
  deriving DecidableEq

/-- The loop over one snapshot of the peers: the first peer that passes the
test ends it; every peer before it adds one to `tryCount`, followed by a sleep
of 2 seconds. -/
def scanPeers (host : Host) : List GoString → Nat → Scan
  | [], tryCount => .exhausted tryCount
  | v :: rest, tryCount =>
    match isCandidate host v with
    | none => .panicked
    | some true => .found v tryCount
    | some false => scanPeers host rest (tryCount + 1)

/-- How `waitForOpponent` ends. -/
inductive Discovery
  /-- An opponent was found (`found = true`) and is returned; `tryCount` is
  also the number of sleeps, `scans` the number of snapshots taken. -/
  | found (opponent : GoString) (tryCount scans : Nat)
  /-- The timeout was logged; the zero `peer.ID` is returned. -/
  | timeout (tryCount scans : Nat)
  /-- The test of a peer panicked. -/
  | panicked
  deriving DecidableEq

/-- The value `waitForOpponent` returns. -/
def Discovery.opponent : Discovery → Option GoString
  | .found opponent _ _ => some opponent
  | .timeout _ _ => some []
  | .panicked => none

/-- The outer loop of `waitForOpponent` (lines 143-163). `snapshots k` is what
`player.host.Peerstore().Peers()` returns at its call number `k`. `none` means
that the loop has not ended after `fuel` iterations. -/
def waitLoop (host : Host) (snapshots : Nat → List GoString) :
    Nat → Nat → Nat → Option Discovery
  | 0, _, _ => none
  | fuel + 1, k, tryCount =>
    if tryCount ≥ timeoutTries then some (.timeout tryCount k)
    else
      match scanPeers host (snapshots k) tryCount with
      | .panicked => some .panicked
      | .found opponent tries => some (.found opponent tries (k + 1))
      | .exhausted tries => waitLoop host snapshots fuel (k + 1) tries

/-- The method `waitForOpponent`, with at most `fuel` iterations of its outer
loop. -/
def waitForOpponent (host : Host) (snapshots : Nat → List GoString) (fuel : Nat) :
    Option Discovery :=
  waitLoop host snapshots fuel 0 0

/-- The method `StartPlaying`: `startGame` is called with whatever
`waitForOpponent` returns. The result is how the discovery ended and the run
of `startGame`, if it was reached. -/
def StartPlaying (host : Host) (snapshots : Nat → List GoString) (fuel : Nat)
    (draws : Nat → Choice × GoString) (inbox : List GoString) :
    Option (Discovery × Option Run) :=
  match waitForOpponent host snapshots fuel with
  | none => none
  | some .panicked => some (.panicked, none)
  | some discovery => some (discovery, some (startGame draws inbox))

/-- A host for the examples: the local identity `me`, `Pretty` taken as the
identity function, and a bootstrap address whose field 6 is `boot`. -/
def exampleHost : Host :=
  ⟨ascii "me", fun v => v, ascii "/ip4/127.0.0.1/tcp/4001/ipfs/boot"⟩

/-- The stream made of the lines `lines`, each followed by a newline. -/
def joinLines : List GoString → List UInt8
  | [] => []
  | line :: rest => line ++ 10 :: joinLines rest

/-- The frames received in a trace, oldest first. -/
def receivedFrames : List Event → List GoString
  | [] => []
  | .received frame :: rest => frame :: receivedFrames rest
  | .sent _ :: rest => receivedFrames rest
  | .scored _ _ :: rest => receivedFrames rest

/-- The rounds scored in a trace, oldest first: the value of `roundCount` at
the round and the result. -/
def scoredRounds : List Event → List (Nat × Result)
  | [] => []
  | .scored round result :: rest => (round, result) :: scoredRounds rest
  | .sent _ :: rest => scoredRounds rest
  | .received _ :: rest => scoredRounds rest

/-- The draws of a peer that plays the pairs `(salt, choice)` of `script`,
one per iteration. -/
def drawsOf (script : List (GoString × Choice)) (i : Nat) : Choice × GoString :=
  match script[i]? with
  | some (salt, choice) => (choice, salt)
  | none => (Rock, [])

/-! ## Definitions that follow the specification -/

/-- The states of a round in the specification's state machine, as far as the
trace tells them apart: `commitReceived` is the moment between the receipt of
the opponent's commitment and the sending of the own reveal. -/
inductive Phase
  | idle
  | awaitingOpponentCommit
  | commitReceived
  | awaitingOpponentReveal
  | verifying
  deriving DecidableEq

/-- One event of the specification's round: the own commitment of iteration
`i` is sent, one frame is received, the own reveal of iteration `i` is sent,
one frame is received, and the round is scored. Any other event is refused. -/
def protocolStep (draws : Nat → Choice × GoString) :
    Phase × Nat → Event → Option (Phase × Nat)
  | (.idle, i), .sent frame =>
    if frame = generateCommitment (draws i).2 (draws i).1
    then some (.awaitingOpponentCommit, i) else none
  | (.awaitingOpponentCommit, i), .received _ => some (.commitReceived, i)
  | (.commitReceived, i), .sent frame =>
    if frame = revealFrame (draws i).2 (draws i).1
    then some (.awaitingOpponentReveal, i) else none
  | (.awaitingOpponentReveal, i), .received _ => some (.verifying, i)
  | (.verifying, i), .scored _ _ => some (.idle, i + 1)
  | _, _ => none

/-- The state the specification's rounds reach on a trace, if they accept it. -/
def protocolRun (draws : Nat → Choice × GoString) :
    Phase × Nat → List Event → Option (Phase × Nat)
  | state, [] => some state
  | state, event :: rest =>
    match protocolStep draws state event with
    | some next => protocolRun draws next rest
    | none => none

/-- The result of a round as the other peer sees it. -/
def mirror (result : Result) : Result :=
  if result = Win then Lose else if result = Lose then Win else result

/-- The choices of peer A in the end-to-end scenario of the specification. -/
def scenarioChoicesA : List Choice := [Rock, Paper, Scissors, Rock, Paper]

/-- The draws of peer A in the scenario: its choices in order, with the salts
`saltA`. -/
def scenarioDraws (saltA : Nat → GoString) (i : Nat) : Choice × GoString :=
  (scenarioChoicesA.getD i Rock, saltA i)

/-- The draws of peer B in the scenario: the choices
`[Scissors, Rock, Paper, Paper, Rock]` with the salts `saltB`. -/
def scenarioScript (saltB : Nat → GoString) : List (GoString × Choice) :=
  [(saltB 0, Scissors), (saltB 1, Rock), (saltB 2, Paper), (saltB 3, Paper), (saltB 4, Rock)]

/-- A script of 3 Draws followed by 5 rounds that are not a Draw, for a local
player who always draws `Rock`. -/
def threeDrawsThenFive : List (GoString × Choice) :=
  [(ascii "s0", Rock), (ascii "s1", Rock), (ascii "s2", Rock), (ascii "s3", Paper),
   (ascii "s4", Scissors), (ascii "s5", Paper), (ascii "s6", Scissors)]

/-- The specification's `evaluate(my, opponent)`: with
`d = ((my − opponent) mod 3 + 3) mod 3`, `d = 0` is a Draw, `d = 1` a Win and
`d = 2` a Lose. -/
def evaluate (my opponent : Choice) : Result :=
  let d := ((my - opponent) % 3 + 3) % 3
  if d = 0 then Draw else if d = 1 then Win else Lose

/-- Cyclic dominance: Rock beats Scissors, Scissors beats Paper, Paper beats
Rock. -/
def beats (a b : Choice) : Prop :=
  (a = Rock ∧ b = Scissors) ∨ (a = Scissors ∧ b = Paper) ∨ (a = Paper ∧ b = Rock)

instance (a b : Choice) : Decidable (beats a b) := by
  unfold beats; infer_instance

/-! ## Unfolding lemmas -/

theorem checkCommitment_self (salt : GoString) (choice : Choice) :
    checkCommitment salt choice (generateCommitment salt choice) = true := by
  simp [checkCommitment]

theorem toByte_add_256 (c : Choice) : toByte (c + 256) = toByte c := by
  simp [toByte]

theorem generateCommitment_add_256 (salt : GoString) (c : Choice) :
    generateCommitment salt (c + 256) = generateCommitment salt c := by
  simp [generateCommitment, toByte_add_256]

theorem toByte_eq_iff (c c' : Int) : toByte c = toByte c' ↔ c % 256 = c' % 256 := by
  have h1 : 0 ≤ c % 256 := Int.emod_nonneg _ (by decide)
  have h2 : c % 256 < 256 := Int.emod_lt_of_pos _ (by decide)
  have h3 : 0 ≤ c' % 256 := Int.emod_nonneg _ (by decide)
  have h4 : c' % 256 < 256 := Int.emod_lt_of_pos _ (by decide)
  unfold toByte
  constructor
  · intro h
    have h5 := congrArg UInt8.toNat h
    rw [UInt8.toNat_ofNat_of_lt (by show _ < 256; omega),
      UInt8.toNat_ofNat_of_lt (by show _ < 256; omega)] at h5
    omega
  · intro h
    rw [h]

/-- The bytes hashed for two pairs are the same exactly when the salts are
equal and the choices are equal modulo 256. -/
theorem commitment_input_eq_iff (salt salt' : GoString) (c c' : Choice) :
    salt ++ [toByte c] = salt' ++ [toByte c'] ↔ salt = salt' ∧ c % 256 = c' % 256 := by
  rw [← toByte_eq_iff]
  constructor
  · intro h
    have := List.append_inj' h rfl
    simpa using this
  · rintro ⟨rfl, h⟩
    rw [h]

theorem gameLoop_done (draws : Nat → Choice × GoString) (inbox : List GoString)
    (iter rc wc : Nat) (trace : List Event) (h : MAX_ROUNDS ≤ rc) :
    gameLoop draws inbox iter rc wc trace
      = ⟨.declared (declare wc), rc, wc, trace, inbox⟩ := by
  unfold gameLoop
  simp [Nat.not_lt.mpr h]

theorem gameLoop_scored (draws : Nat → Choice × GoString) (c r : GoString)
    (rest : List GoString) (iter rc wc : Nat) (trace : List Event)
    (os : GoString) (oc : Choice) (hrc : rc < MAX_ROUNDS)
    (hparse : parseReveal r = some (os, oc)) (hcheck : checkCommitment os oc c = true) :
    gameLoop draws (c :: r :: rest) iter rc wc trace
      = gameLoop draws rest (iter + 1)
          (if analyzeResult (draws iter).1 oc ≠ Draw then rc + 1 else rc)
          (if analyzeResult (draws iter).1 oc = Win then wc + 1 else wc)
          (trace ++ [.sent (generateCommitment (draws iter).2 (draws iter).1), .received c,
            .sent (revealFrame (draws iter).2 (draws iter).1), .received r,
            .scored rc (analyzeResult (draws iter).1 oc)]) := by
  rw [gameLoop]
  simp [hrc, hparse, hcheck]

theorem gameLoop_aborted (draws : Nat → Choice × GoString) (c r : GoString)
    (rest : List GoString) (iter rc wc : Nat) (trace : List Event)
    (os : GoString) (oc : Choice) (hrc : rc < MAX_ROUNDS)
    (hparse : parseReveal r = some (os, oc)) (hcheck : checkCommitment os oc c = false) :
    gameLoop draws (c :: r :: rest) iter rc wc trace
      = ⟨.aborted, rc, wc,
          trace ++ [.sent (generateCommitment (draws iter).2 (draws iter).1), .received c,
            .sent (revealFrame (draws iter).2 (draws iter).1), .received r], rest⟩ := by
  rw [gameLoop]
  simp [hrc, hparse, hcheck]

/-! ## The reveal frame of an honest peer -/

theorem splitOn_append_sep (sep : UInt8) (s t : GoString) (h : sep ∉ s) :
    splitOn sep (s ++ sep :: t) = s :: splitOn sep t := by
  induction s with
  | nil => simp [splitOn]
  | cons b s ih =>
    have hb : b ≠ sep := fun e => h (by simp [e])
    have hs : sep ∉ s := fun e => h (by simp [e])
    simp [splitOn, hb, ih hs]

theorem atoi_formatInt_valid (c : Choice) (hc : c.valid) :
    ∃ field, splitOn 44 (formatInt c) = [field] ∧ (Atoi field).1 = c := by
  rcases hc with rfl | rfl | rfl
  · exact ⟨[48], by decide, by decide⟩
  · exact ⟨[49], by decide, by decide⟩
  · exact ⟨[50], by decide, by decide⟩

theorem parseReveal_revealFrame (salt : GoString) (c : Choice) (hs : (44 : UInt8) ∉ salt)
    (hc : c.valid) : parseReveal (revealFrame salt c) = some (salt, c) := by
  obtain ⟨field, hsplit, hval⟩ := atoi_formatInt_valid c hc
  unfold parseReveal revealFrame
  rw [splitOn_append_sep _ _ _ hs, hsplit]
  simp [hval]

/-! ## The commitment scheme -/

/-- C1, binding, fails on the code: `byte(choice)` keeps the low 8 bits of the
choice only, so that the choice 256, which is not `Rock`, is accepted with the
same salt against the commitment of `Rock`. -/
theorem binding_fails_modulo_256 :
    (256 : Choice) ≠ Rock ∧
      checkCommitment (ascii "s") 256 (generateCommitment (ascii "s") Rock) = true := by
  refine ⟨by decide, ?_⟩
  have h := generateCommitment_add_256 (ascii "s") Rock
  have e : (Rock + 256 : Choice) = 256 := by decide
  rw [e] at h
  rw [← h]
  exact checkCommitment_self _ _

/-- C2, no change of choice after the commitment, fails on the code: against
the commitment of `("s", Rock)` the reveal frames `s,0` and `s,256` both parse
and both pass `checkCommitment`, and a local player who chose `Rock` scores a
Draw with the first and a Lose with the second. -/
theorem reveal_changes_result_after_commitment :
    parseReveal (ascii "s,0") = some (ascii "s", 0) ∧
    parseReveal (ascii "s,256") = some (ascii "s", 256) ∧
    checkCommitment (ascii "s") 0 (generateCommitment (ascii "s") Rock) = true ∧
    checkCommitment (ascii "s") 256 (generateCommitment (ascii "s") Rock) = true ∧
    analyzeResult Rock 0 = Draw ∧ analyzeResult Rock 256 = Lose ∧
    (startGame (fun _ => (Rock, ascii "a"))
      [generateCommitment (ascii "s") Rock, ascii "s,0"]).roundCount = 0 ∧
    (startGame (fun _ => (Rock, ascii "a"))
      [generateCommitment (ascii "s") Rock, ascii "s,256"]).roundCount = 1 := by
  have h0 : parseReveal (ascii "s,0") = some (ascii "s", 0) := by decide
  have h256 : parseReveal (ascii "s,256") = some (ascii "s", 256) := by decide
  have c0 : checkCommitment (ascii "s") 0 (generateCommitment (ascii "s") Rock) = true :=
    checkCommitment_self _ _
  have c256 : checkCommitment (ascii "s") 256 (generateCommitment (ascii "s") Rock) = true := by
    have h := generateCommitment_add_256 (ascii "s") Rock
    have e : (Rock + 256 : Choice) = 256 := by decide
    rw [e] at h
    rw [← h]
    exact checkCommitment_self _ _
  have r0 : analyzeResult Rock 0 = Draw := by decide
  have r256 : analyzeResult Rock 256 = Lose := by decide
  refine ⟨h0, h256, c0, c256, r0, r256, ?_, ?_⟩
  · rw [startGame, gameLoop_scored _ _ _ _ _ _ _ _ _ _ (by decide) h0 c0]
    simp only [r0]
    rw [gameLoop]
    simp [MAX_ROUNDS]
  · rw [startGame, gameLoop_scored _ _ _ _ _ _ _ _ _ _ (by decide) h256 c256]
    simp only [r256]
    rw [gameLoop]
    simp [MAX_ROUNDS, Lose, Draw]

/-- C3, commitment correctness: for every salt and every choice,
`checkCommitment` accepts the pair against the commitment generated from it. -/
theorem commitment_correct (salt : GoString) (choice : Choice) :
    checkCommitment salt choice (generateCommitment salt choice) = true := by
  unfold checkCommitment
  exact beq_self_eq_true _

/-! ## The result of a round -/

/-- C4, cyclic dominance: on the 9 pairs of valid choices `analyzeResult` is a
Draw exactly on equal choices, a Win exactly when the own choice beats the
opponent's, a Lose on the remaining pairs, and its ordinal is
`((my − opponent) mod 3 + 3) mod 3` with 0 = Draw, 1 = Win, 2 = Lose. -/
theorem analyzeResult_cyclic_dominance (my opponent : Choice)
    (hm : my.valid) (ho : opponent.valid) :
    (analyzeResult my opponent = Draw ↔ my = opponent) ∧
    (analyzeResult my opponent = Win ↔ beats my opponent) ∧
    (analyzeResult my opponent = Lose ↔ (my ≠ opponent ∧ ¬ beats my opponent)) ∧
    analyzeResult my opponent = ((my - opponent) % 3 + 3) % 3 ∧
    analyzeResult my opponent = evaluate my opponent ∧
    Draw = 0 ∧ Win = 1 ∧ Lose = 2 := by
  rcases hm with rfl | rfl | rfl <;> rcases ho with rfl | rfl | rfl <;> decide

theorem analyzeResult_cyclic_dominance_witness :
    analyzeResult Rock Scissors = Win ∧ analyzeResult Scissors Paper = Win ∧
      analyzeResult Paper Rock = Win :=
  ⟨(analyzeResult_cyclic_dominance Rock Scissors (by decide) (by decide)).2.1.2 (by decide),
   (analyzeResult_cyclic_dominance Scissors Paper (by decide) (by decide)).2.1.2 (by decide),
   (analyzeResult_cyclic_dominance Paper Rock (by decide) (by decide)).2.1.2 (by decide)⟩

/-- C5, cyclic consistency: for valid choices `a` and `b`, `analyzeResult a b`
is a Lose if and only if `analyzeResult b a` is a Win, and `analyzeResult a a`
is a Draw. -/
theorem analyzeResult_cyclic_consistency (a b : Choice) (ha : a.valid) (hb : b.valid) :
    (analyzeResult a b = Lose ↔ analyzeResult b a = Win) ∧ analyzeResult a a = Draw := by
  rcases ha with rfl | rfl | rfl <;> rcases hb with rfl | rfl | rfl <;> decide

theorem analyzeResult_cyclic_consistency_witness :
    Choice.valid Scissors ∧ Choice.valid Rock ∧
      (analyzeResult Scissors Rock = Lose ↔ analyzeResult Rock Scissors = Win) ∧
      analyzeResult Scissors Scissors = Draw :=
  ⟨by decide, by decide, analyzeResult_cyclic_consistency Scissors Rock (by decide) (by decide)⟩

/-! ## Counters and trace -/

theorem scoredResults_append (a b : List Event) :
    scoredResults (a ++ b) = scoredResults a ++ scoredResults b := by
  induction a with
  | nil => rfl
  | cons e a ih => cases e <;> simp [scoredResults, ih]

theorem nonDraws_append_singleton (results : List Result) (r : Result) :
    nonDraws (results ++ [r]) = if r ≠ Draw then nonDraws results + 1 else nonDraws results := by
  unfold nonDraws
  by_cases h : r = Draw <;> simp [List.countP_append, List.countP_cons, h]

theorem wins_append_singleton (results : List Result) (r : Result) :
    wins (results ++ [r]) = if r = Win then wins results + 1 else wins results := by
  unfold wins
  by_cases h : r = Win <;> simp [List.countP_append, List.countP_cons, h]

/-- The counters agree with the trace at every exit of the loop when they do
at its entry. -/
theorem gameLoop_counts (draws : Nat → Choice × GoString) :
    ∀ (n : Nat) (inbox : List GoString) (iter rc wc : Nat) (trace : List Event),
      inbox.length ≤ n →
      wc = wins (scoredResults trace) → rc = nonDraws (scoredResults trace) →
      (gameLoop draws inbox iter rc wc trace).winCount
          = wins (scoredResults (gameLoop draws inbox iter rc wc trace).trace) ∧
        (gameLoop draws inbox iter rc wc trace).roundCount
          = nonDraws (scoredResults (gameLoop draws inbox iter rc wc trace).trace) := by
  intro n
  induction n with
  | zero =>
    intro inbox iter rc wc trace hlen hw hr
    have : inbox = [] := List.length_eq_zero.mp (Nat.le_zero.mp hlen)
    subst this
    rw [gameLoop]
    split <;> simp [scoredResults_append, scoredResults, hw, hr]
  | succ n ih =>
    intro inbox iter rc wc trace hlen hw hr
    rw [gameLoop]
    split
    · match inbox, hlen with
      | [], _ => simp [scoredResults_append, scoredResults, hw, hr]
      | [c], _ => simp [scoredResults_append, scoredResults, hw, hr]
      | c :: r :: rest, hlen =>
        simp only
        split
        · simp [scoredResults_append, scoredResults, hw, hr]
        · split
          · simp [scoredResults_append, scoredResults, hw, hr]
          · apply ih
            · simp at hlen; omega
            · simp [scoredResults_append, scoredResults, wins_append_singleton, hw]
            · simp [scoredResults_append, scoredResults, nonDraws_append_singleton, hr]
    · simp [hw, hr]

/-! ## Rounds against an honest opponent -/

theorem nonDraws_cons (r : Result) (results : List Result) :
    nonDraws (r :: results) = nonDraws results + if r ≠ Draw then 1 else 0 := by
  unfold nonDraws
  by_cases h : r = Draw <;> simp [List.countP_cons, h]

theorem wins_cons (r : Result) (results : List Result) :
    wins (r :: results) = wins results + if r = Win then 1 else 0 := by
  unfold wins
  by_cases h : r = Win <;> simp [List.countP_cons, h]

theorem roundFrames_append (a b : List (GoString × GoString)) :
    roundFrames (a ++ b) = roundFrames a ++ roundFrames b := by
  induction a with
  | nil => rfl
  | cons p a ih => obtain ⟨c, r⟩ := p; simp [roundFrames, ih]

theorem roundResults_append (draws : Nat → Choice × GoString) (a b : List (GoString × GoString)) :
    ∀ iter, roundResults draws iter (a ++ b)
      = roundResults draws iter a ++ roundResults draws (iter + a.length) b := by
  induction a with
  | nil => intro iter; simp [roundResults]
  | cons p a ih =>
    intro iter
    obtain ⟨c, r⟩ := p
    simp [roundResults, ih, Nat.add_assoc, Nat.add_comm 1]

theorem roundResults_length (draws : Nat → Choice × GoString)
    (rounds : List (GoString × GoString)) :
    ∀ iter, (roundResults draws iter rounds).length = rounds.length := by
  induction rounds with
  | nil => intro iter; rfl
  | cons p rounds ih => intro iter; obtain ⟨c, r⟩ := p; simp [roundResults, ih]

theorem revealVerifies_iff (c r : GoString) :
    revealVerifies c r = true ↔
      ∃ os, parseReveal r = some (os, revealedChoice r)
        ∧ checkCommitment os (revealedChoice r) c = true := by
  unfold revealVerifies revealedChoice
  cases h : parseReveal r with
  | none => simp
  | some p => obtain ⟨os, oc⟩ := p; simp

/-- A round whose reveal verifies is scored. -/
theorem gameLoop_verified_round (draws : Nat → Choice × GoString) (c r : GoString)
    (rest : List GoString) (iter rc wc : Nat) (trace : List Event)
    (hrc : rc < MAX_ROUNDS) (hv : revealVerifies c r = true) :
    gameLoop draws (c :: r :: rest) iter rc wc trace
      = gameLoop draws rest (iter + 1)
          (if analyzeResult (draws iter).1 (revealedChoice r) ≠ Draw then rc + 1 else rc)
          (if analyzeResult (draws iter).1 (revealedChoice r) = Win then wc + 1 else wc)
          (trace ++ [.sent (generateCommitment (draws iter).2 (draws iter).1), .received c,
            .sent (revealFrame (draws iter).2 (draws iter).1), .received r,
            .scored rc (analyzeResult (draws iter).1 (revealedChoice r))]) := by
  obtain ⟨os, hparse, hcheck⟩ := (revealVerifies_iff c r).1 hv
  exact gameLoop_scored draws c r rest iter rc wc trace os (revealedChoice r) hrc hparse hcheck

/-- While the budget is not exhausted, rounds whose reveals verify are all
scored. -/
theorem gameLoop_verified (draws : Nat → Choice × GoString) :
    ∀ (rounds : List (GoString × GoString)) (more : List GoString) (iter rc wc : Nat)
      (trace : List Event),
      (∀ p ∈ rounds, revealVerifies p.1 p.2 = true) →
      rc + nonDraws (roundResults draws iter rounds) < MAX_ROUNDS →
      ∃ events, scoredResults events = roundResults draws iter rounds ∧
        gameLoop draws (roundFrames rounds ++ more) iter rc wc trace
          = gameLoop draws more (iter + rounds.length)
              (rc + nonDraws (roundResults draws iter rounds))
              (wc + wins (roundResults draws iter rounds)) (trace ++ events) := by
  intro rounds
  induction rounds with
  | nil =>
    intro more iter rc wc trace _ _
    exact ⟨[], rfl, by simp [roundFrames, roundResults, nonDraws, wins]⟩
  | cons p rounds ih =>
    intro more iter rc wc trace verified budget
    obtain ⟨c, r⟩ := p
    have hp : revealVerifies c r = true := verified (c, r) (by simp)
    have hrest : ∀ q ∈ rounds, revealVerifies q.1 q.2 = true :=
      fun q hq => verified q (by simp [hq])
    simp only [roundResults, nonDraws_cons] at budget
    have hrc : rc < MAX_ROUNDS := by omega
    have hstep := gameLoop_verified_round draws c r (roundFrames rounds ++ more) iter rc wc
      trace hrc hp
    obtain ⟨events, hev, hrun⟩ := ih more (iter + 1)
      (if analyzeResult (draws iter).1 (revealedChoice r) ≠ Draw then rc + 1 else rc)
      (if analyzeResult (draws iter).1 (revealedChoice r) = Win then wc + 1 else wc)
      (trace ++ [.sent (generateCommitment (draws iter).2 (draws iter).1), .received c,
        .sent (revealFrame (draws iter).2 (draws iter).1), .received r,
        .scored rc (analyzeResult (draws iter).1 (revealedChoice r))]) hrest
      (by by_cases hd : analyzeResult (draws iter).1 (revealedChoice r) = Draw
            <;> simp [hd] at budget ⊢ <;> omega)
    refine ⟨[.sent (generateCommitment (draws iter).2 (draws iter).1), .received c,
        .sent (revealFrame (draws iter).2 (draws iter).1), .received r,
        .scored rc (analyzeResult (draws iter).1 (revealedChoice r))] ++ events, ?_, ?_⟩
    · simp [scoredResults_append, scoredResults, roundResults, hev]
    · simp only [roundFrames, List.cons_append, roundResults, nonDraws_cons, wins_cons]
      rw [hstep, hrun]
      congr 1
      · simp; omega
      · by_cases hd : analyzeResult (draws iter).1 (revealedChoice r) = Draw
        · simp [hd]
        · simp [hd]; omega
      · by_cases hd : analyzeResult (draws iter).1 (revealedChoice r) = Win
        · simp [hd]; omega
        · simp [hd]
      · simp

/-- A match in which every reveal verifies ends with the round in which the
budget is reached: the rounds up to it are all scored and no later frame is
taken from the channel. -/
theorem startGame_verified_finish (draws : Nat → Choice × GoString)
    (init : List (GoString × GoString)) (last : GoString × GoString) (extra : List GoString)
    (verified : ∀ p ∈ init ++ [last], revealVerifies p.1 p.2 = true)
    (hinit : nonDraws (roundResults draws 0 init) + 1 = MAX_ROUNDS)
    (hlast : analyzeResult (draws init.length).1 (revealedChoice last.2) ≠ Draw) :
    ∃ events, scoredResults events = roundResults draws 0 (init ++ [last]) ∧
      startGame draws (roundFrames (init ++ [last]) ++ extra)
        = ⟨.declared (declare (wins (roundResults draws 0 (init ++ [last])))), MAX_ROUNDS,
            wins (roundResults draws 0 (init ++ [last])), events, extra⟩ := by
  obtain ⟨c, r⟩ := last
  have hinit' : ∀ p ∈ init, revealVerifies p.1 p.2 = true :=
    fun p hp => verified p (by simp [hp])
  have hl : revealVerifies c r = true := verified (c, r) (by simp)
  obtain ⟨events, hev, hrun⟩ := gameLoop_verified draws init
    (roundFrames [(c, r)] ++ extra) 0 0 0 [] hinit' (by omega)
  have hstep := gameLoop_verified_round draws c r extra (0 + init.length)
    (0 + nonDraws (roundResults draws 0 init)) (0 + wins (roundResults draws 0 init))
    ([] ++ events) (by omega) hl
  simp only [Nat.zero_add] at hstep hrun
  simp only [ne_eq] at hlast
  simp only [ne_eq, hlast, not_false_eq_true, if_true] at hstep
  refine ⟨events ++ [.sent (generateCommitment (draws init.length).2 (draws init.length).1),
      .received c, .sent (revealFrame (draws init.length).2 (draws init.length).1),
      .received r,
      .scored (nonDraws (roundResults draws 0 init))
        (analyzeResult (draws init.length).1 (revealedChoice r))], ?_, ?_⟩
  · simp [scoredResults_append, scoredResults, roundResults_append, roundResults, hev]
  · have hw : wins (roundResults draws 0 (init ++ [(c, r)]))
        = if analyzeResult (draws init.length).1 (revealedChoice r) = Win
          then wins (roundResults draws 0 init) + 1 else wins (roundResults draws 0 init) := by
      rw [roundResults_append]
      simp only [roundResults, Nat.zero_add]
      exact wins_append_singleton _ _
    rw [startGame, roundFrames_append, List.append_assoc, hrun]
    simp only [roundFrames, List.cons_append, List.nil_append] at hstep ⊢
    rw [hstep, gameLoop_done _ _ _ _ _ _ (by omega), hw, hinit]

/-- The frames of an honest opponent verify and reveal its choice. -/
theorem honestRound_verifies (draw : GoString × Choice) (hs : (44 : UInt8) ∉ draw.1)
    (hc : draw.2.valid) :
    revealVerifies (honestRound draw).1 (honestRound draw).2 = true
      ∧ revealedChoice (honestRound draw).2 = draw.2 := by
  obtain ⟨salt, choice⟩ := draw
  have hparse := parseReveal_revealFrame salt choice hs hc
  simp [revealVerifies, revealedChoice, honestRound, hparse, checkCommitment_self]

theorem honestRounds_verify (script : List (GoString × Choice))
    (honest : ∀ q ∈ script, (44 : UInt8) ∉ q.1 ∧ q.2.valid) :
    ∀ p ∈ script.map honestRound, revealVerifies p.1 p.2 = true := by
  intro p hp
  obtain ⟨q, hq, rfl⟩ := List.mem_map.1 hp
  exact (honestRound_verifies q (honest q hq).1 (honest q hq).2).1

/-! ## The final declaration -/

theorem toFloat32_small (n : Nat) (h : n < 16777216) : toFloat32 n = n := by
  simp [toFloat32, h]

theorem toFloat32_large (n : Nat) (h : 16777216 ≤ n) : 8388608 ≤ toFloat32 n := by
  have hn : n ≠ 0 := by omega
  have hlog : 24 ≤ Nat.log2 n := (Nat.le_log2 hn).2 (by simpa using h)
  have hpow : 2 ^ Nat.log2 n ≤ n := Nat.log2_self_le hn
  have hsplit : 2 ^ Nat.log2 n = 2 ^ 23 * 2 ^ (Nat.log2 n - 23) := by
    rw [← Nat.pow_add]; congr 1; omega
  have hq : 2 ^ 23 ≤ n / 2 ^ (Nat.log2 n - 23) := by
    rw [Nat.le_div_iff_mul_le (Nat.pos_pow_of_pos _ (by decide))]
    omega
  have hpos : 1 ≤ 2 ^ (Nat.log2 n - 23) := Nat.one_le_two_pow
  have hmul : ∀ q, 2 ^ 23 ≤ q → 8388608 ≤ q * 2 ^ (Nat.log2 n - 23) := by
    intro q hq'
    calc 8388608 = 2 ^ 23 * 1 := by norm_num
      _ ≤ q * 2 ^ (Nat.log2 n - 23) := Nat.mul_le_mul hq' hpos
  have hlt : ¬ n < 16777216 := by omega
  simp only [toFloat32, hlt, if_false, Nat.shiftLeft_eq, Nat.shiftRight_eq_div_pow]
  split
  · exact hmul _ (by omega)
  · exact hmul _ hq

/-- On integers the comparison of line 106 is the comparison of `winCount`
with `MAX_ROUNDS / 2`. -/
theorem declare_eq (winCount : Nat) :
    declare winCount = if MAX_ROUNDS / 2 < winCount then Win else Lose := by
  have h2 : toFloat32 (MAX_ROUNDS / 2) = 2 := by decide
  have hm : MAX_ROUNDS / 2 = 2 := by decide
  unfold declare
  rw [h2, hm]
  by_cases h : winCount < 16777216
  · rw [toFloat32_small _ h]
  · have := toFloat32_large winCount (by omega)
    have h1 : toFloat32 winCount > 2 := by omega
    have h3 : 2 < winCount := by omega
    simp [h1, h3]

/-- A call that ends with a declaration has used up its budget and declares
by the rule of lines 106-110 on its final `winCount`. -/
theorem gameLoop_declared (draws : Nat → Choice × GoString) (d : Result) :
    ∀ (n : Nat) (inbox : List GoString) (iter rc wc : Nat) (trace : List Event),
      inbox.length ≤ n →
      (gameLoop draws inbox iter rc wc trace).outcome = .declared d →
      d = declare (gameLoop draws inbox iter rc wc trace).winCount ∧
        MAX_ROUNDS ≤ (gameLoop draws inbox iter rc wc trace).roundCount := by
  intro n
  induction n with
  | zero =>
    intro inbox iter rc wc trace hlen
    have : inbox = [] := List.length_eq_zero.mp (Nat.le_zero.mp hlen)
    subst this
    rw [gameLoop]
    split
    · simp
    · intro h
      simp only [Outcome.declared.injEq] at h
      exact ⟨h.symm, by show MAX_ROUNDS ≤ rc; omega⟩
  | succ n ih =>
    intro inbox iter rc wc trace hlen
    rw [gameLoop]
    split
    · match inbox, hlen with
      | [], _ => simp
      | [c], _ => simp
      | c :: r :: rest, hlen =>
        simp only
        split
        · simp
        · split
          · simp
          · exact ih _ _ _ _ _ (by simp at hlen; omega)
    · intro h
      simp only [Outcome.declared.injEq] at h
      exact ⟨h.symm, by show MAX_ROUNDS ≤ rc; omega⟩

/-! ## The rounds of `startGame` -/

/-- C6, a commitment mismatch aborts the match at once: when the reveal of a
round fails `checkCommitment` against the commitment frame of that round, the
function returns there. The round is not scored, `winCount` and `roundCount`
keep their values, the trace ends with the receipt of the reveal, the frames
after it stay in the channel, and the outcome is not a declaration. -/
theorem mismatch_aborts_at_once (draws : Nat → Choice × GoString)
    (opponentCommitment opponentChoiceMessage : GoString) (rest : List GoString)
    (iter roundCount winCount : Nat) (trace : List Event)
    (opponentSalt : GoString) (opponentChoice : Choice)
    (hbudget : roundCount < MAX_ROUNDS)
    (hparse : parseReveal opponentChoiceMessage = some (opponentSalt, opponentChoice))
    (hcheck : checkCommitment opponentSalt opponentChoice opponentCommitment = false) :
    gameLoop draws (opponentCommitment :: opponentChoiceMessage :: rest) iter
        roundCount winCount trace
      = ⟨.aborted, roundCount, winCount,
          trace ++ [.sent (generateCommitment (draws iter).2 (draws iter).1),
            .received opponentCommitment,
            .sent (revealFrame (draws iter).2 (draws iter).1),
            .received opponentChoiceMessage], rest⟩ :=
  gameLoop_aborted draws opponentCommitment opponentChoiceMessage rest iter roundCount
    winCount trace opponentSalt opponentChoice hbudget hparse hcheck

theorem mismatch_aborts_at_once_witness :
    parseReveal (ascii "s,2") = some (ascii "s", Scissors) ∧
    checkCommitment (ascii "s") Scissors (generateCommitment (ascii "s") Paper) = false ∧
    gameLoop (constDraws Rock (ascii "a"))
        [generateCommitment (ascii "s") Paper, ascii "s,2", ascii "next"] 7 3 2 []
      = ⟨.aborted, 3, 2,
          [] ++ [.sent (generateCommitment (constDraws Rock (ascii "a") 7).2
              (constDraws Rock (ascii "a") 7).1),
            .received (generateCommitment (ascii "s") Paper),
            .sent (revealFrame (constDraws Rock (ascii "a") 7).2
              (constDraws Rock (ascii "a") 7).1),
            .received (ascii "s,2")], [ascii "next"]⟩ :=
  ⟨by decide, by decide,
    mismatch_aborts_at_once (constDraws Rock (ascii "a")) (generateCommitment (ascii "s") Paper)
      (ascii "s,2") [ascii "next"] 7 3 2 [] (ascii "s") Scissors (by decide) (by decide)
      (by decide)⟩

/-- C7, the counter update rule: a round that is scored adds one to
`winCount` exactly when its result is a Win and one to `roundCount` exactly
when its result is not a Draw; and whenever `startGame` ends, `winCount` is the
number of Win results and `roundCount` the number of results other than Draw
among the rounds scored. -/
theorem counter_update_rule :
    (∀ (draws : Nat → Choice × GoString) (opponentCommitment opponentChoiceMessage : GoString)
        (rest : List GoString) (iter roundCount winCount : Nat) (trace : List Event)
        (opponentSalt : GoString) (opponentChoice : Choice),
        roundCount < MAX_ROUNDS →
        parseReveal opponentChoiceMessage = some (opponentSalt, opponentChoice) →
        checkCommitment opponentSalt opponentChoice opponentCommitment = true →
        gameLoop draws (opponentCommitment :: opponentChoiceMessage :: rest) iter
            roundCount winCount trace
          = gameLoop draws rest (iter + 1)
              (roundCount + if analyzeResult (draws iter).1 opponentChoice = Draw then 0 else 1)
              (winCount + if analyzeResult (draws iter).1 opponentChoice = Win then 1 else 0)
              (trace ++ [.sent (generateCommitment (draws iter).2 (draws iter).1),
                .received opponentCommitment,
                .sent (revealFrame (draws iter).2 (draws iter).1),
                .received opponentChoiceMessage,
                .scored roundCount (analyzeResult (draws iter).1 opponentChoice)])) ∧
    (∀ (draws : Nat → Choice × GoString) (inbox : List GoString),
        (startGame draws inbox).winCount
          = wins (scoredResults (startGame draws inbox).trace) ∧
        (startGame draws inbox).roundCount
          = nonDraws (scoredResults (startGame draws inbox).trace)) := by
  constructor
  · intro draws c r rest iter rc wc trace os oc hrc hparse hcheck
    rw [gameLoop_scored draws c r rest iter rc wc trace os oc hrc hparse hcheck]
    congr 1
    · by_cases h : analyzeResult (draws iter).1 oc = Draw <;> simp [h]
    · by_cases h : analyzeResult (draws iter).1 oc = Win <;> simp [h]
  · intro draws inbox
    exact gameLoop_counts draws inbox.length inbox 0 0 0 [] (Nat.le_refl _) rfl rfl

theorem counter_update_rule_witness :
    gameLoop (constDraws Paper (ascii "a"))
        [generateCommitment (ascii "s") Rock, revealFrame (ascii "s") Rock] 0 0 0 []
      = gameLoop (constDraws Paper (ascii "a")) [] (0 + 1)
          (0 + if analyzeResult (constDraws Paper (ascii "a") 0).1 Rock = Draw then 0 else 1)
          (0 + if analyzeResult (constDraws Paper (ascii "a") 0).1 Rock = Win then 1 else 0)
          ([] ++ [.sent (generateCommitment (constDraws Paper (ascii "a") 0).2
              (constDraws Paper (ascii "a") 0).1),
            .received (generateCommitment (ascii "s") Rock),
            .sent (revealFrame (constDraws Paper (ascii "a") 0).2
              (constDraws Paper (ascii "a") 0).1),
            .received (revealFrame (ascii "s") Rock),
            .scored 0 (analyzeResult (constDraws Paper (ascii "a") 0).1 Rock)]) :=
  counter_update_rule.1 (constDraws Paper (ascii "a")) (generateCommitment (ascii "s") Rock)
    (revealFrame (ascii "s") Rock) [] 0 0 0 [] (ascii "s") Rock (by decide) (by decide)
    (checkCommitment_self _ _)

/-- C8, Draws do not consume the round budget: when every reveal verifies,
the rounds `init` hold `MAX_ROUNDS - 1` results other than Draw, among any
number of Draws, and the round `last` after them is not a Draw, `startGame`
scores every round of `init` and `last`, one per iteration, and stops there: it
declares a result with `roundCount = MAX_ROUNDS` and takes no later frame from
the channel. -/
theorem draws_keep_the_budget (draws : Nat → Choice × GoString)
    (init : List (GoString × GoString)) (last : GoString × GoString) (extra : List GoString)
    (verified : ∀ p ∈ init ++ [last], revealVerifies p.1 p.2 = true)
    (hinit : nonDraws (roundResults draws 0 init) + 1 = MAX_ROUNDS)
    (hlast : analyzeResult (draws init.length).1 (revealedChoice last.2) ≠ Draw) :
    (startGame draws (roundFrames (init ++ [last]) ++ extra)).outcome
      = .declared (declare (wins (roundResults draws 0 (init ++ [last])))) ∧
    (startGame draws (roundFrames (init ++ [last]) ++ extra)).roundCount = MAX_ROUNDS ∧
    (startGame draws (roundFrames (init ++ [last]) ++ extra)).pending = extra ∧
    scoredResults (startGame draws (roundFrames (init ++ [last]) ++ extra)).trace
      = roundResults draws 0 (init ++ [last]) ∧
    (scoredResults (startGame draws (roundFrames (init ++ [last]) ++ extra)).trace).length
      = init.length + 1 := by
  obtain ⟨events, hev, hrun⟩ :=
    startGame_verified_finish draws init last extra verified hinit hlast
  rw [hrun]
  refine ⟨rfl, rfl, rfl, hev, ?_⟩
  simp [hev, roundResults_length]

theorem draws_keep_the_budget_witness :
    roundResults (constDraws Rock (ascii "a")) 0
        (threeDrawsThenFive.map honestRound ++ [honestRound (ascii "s7", Paper)])
      = [Draw, Draw, Draw, Lose, Win, Lose, Win, Lose] ∧
    (startGame (constDraws Rock (ascii "a"))
      (roundFrames (threeDrawsThenFive.map honestRound ++ [honestRound (ascii "s7", Paper)])
        ++ [ascii "late"])).roundCount = MAX_ROUNDS ∧
    (startGame (constDraws Rock (ascii "a"))
      (roundFrames (threeDrawsThenFive.map honestRound ++ [honestRound (ascii "s7", Paper)])
        ++ [ascii "late"])).pending = [ascii "late"] ∧
    (scoredResults (startGame (constDraws Rock (ascii "a"))
      (roundFrames (threeDrawsThenFive.map honestRound ++ [honestRound (ascii "s7", Paper)])
        ++ [ascii "late"])).trace).length = (threeDrawsThenFive.map honestRound).length + 1 ∧
    (threeDrawsThenFive.map honestRound).length + 1 = 8 :=
  have h := draws_keep_the_budget (constDraws Rock (ascii "a"))
    (threeDrawsThenFive.map honestRound) (honestRound (ascii "s7", Paper)) [ascii "late"]
    (by
      have e : threeDrawsThenFive.map honestRound ++ [honestRound (ascii "s7", Paper)]
          = (threeDrawsThenFive ++ [(ascii "s7", Paper)]).map honestRound := by
        rw [List.map_append]; rfl
      rw [e]
      exact honestRounds_verify _ (by decide))
    (by decide) (by decide)
  ⟨by decide, h.2.1, h.2.2.1, h.2.2.2.2, by decide⟩

/-- C9, the final declaration: once the budget is exhausted the loop is left
and `startGame` declares a Win if `winCount > MAX_ROUNDS / 2` (integer
division) and a Lose otherwise, so that with `MAX_ROUNDS = 5` it declares a Win
for `winCount = 3` and a Lose for `winCount = 2`; and every call of `startGame`
that ends with a declaration declares by this rule, with the budget used up. -/
theorem final_declaration_rule (draws : Nat → Choice × GoString) (inbox : List GoString)
    (iter roundCount winCount : Nat) (trace : List Event) (hbudget : MAX_ROUNDS ≤ roundCount) :
    (gameLoop draws inbox iter roundCount winCount trace).outcome
      = .declared (if MAX_ROUNDS / 2 < winCount then Win else Lose) ∧
    ((gameLoop draws inbox iter roundCount winCount trace).outcome = .declared Win
      ↔ MAX_ROUNDS / 2 < winCount) ∧
    ((gameLoop draws inbox iter roundCount winCount trace).outcome = .declared Lose
      ↔ ¬ MAX_ROUNDS / 2 < winCount) ∧
    (winCount = 3 →
      (gameLoop draws inbox iter roundCount winCount trace).outcome = .declared Win) ∧
    (winCount = 2 →
      (gameLoop draws inbox iter roundCount winCount trace).outcome = .declared Lose) ∧
    (∀ (frames : List GoString) (d : Result),
      (startGame draws frames).outcome = .declared d →
        d = (if MAX_ROUNDS / 2 < (startGame draws frames).winCount then Win else Lose) ∧
          MAX_ROUNDS ≤ (startGame draws frames).roundCount) := by
  rw [gameLoop_done draws inbox iter roundCount winCount trace hbudget, declare_eq]
  refine ⟨rfl, ?_, ?_, ?_, ?_, ?_⟩
  · by_cases h : MAX_ROUNDS / 2 < winCount <;> simp [h, Win, Lose]
  · by_cases h : MAX_ROUNDS / 2 < winCount <;> simp [h, Win, Lose]
  · rintro rfl; rfl
  · rintro rfl; rfl
  · intro frames d hd
    have h := gameLoop_declared draws d frames.length frames 0 0 0 [] (Nat.le_refl _) hd
    rw [declare_eq] at h
    exact h

theorem final_declaration_rule_witness :
    (gameLoop (constDraws Rock (ascii "a")) [] 5 5 3 []).outcome = .declared Win ∧
      (gameLoop (constDraws Rock (ascii "a")) [] 7 5 2 []).outcome = .declared Lose :=
  ⟨(final_declaration_rule (constDraws Rock (ascii "a")) [] 5 5 3 [] (by decide)).2.2.2.1 rfl,
   (final_declaration_rule (constDraws Rock (ascii "a")) [] 7 5 2 [] (by decide)).2.2.2.2.1 rfl⟩

/-! ## The end-to-end scenario -/

theorem scenario_roundResults (saltA saltB : Nat → GoString)
    (hB : ∀ i, (44 : UInt8) ∉ saltB i) :
    roundResults (scenarioDraws saltA) 0 ((scenarioScript saltB).map honestRound)
      = [Win, Win, Win, Lose, Win] := by
  have h0 := (honestRound_verifies (saltB 0, Scissors) (hB 0) (by simp [Choice.valid])).2
  have h1 := (honestRound_verifies (saltB 1, Rock) (hB 1) (by simp [Choice.valid])).2
  have h2 := (honestRound_verifies (saltB 2, Paper) (hB 2) (by simp [Choice.valid])).2
  have h3 := (honestRound_verifies (saltB 3, Paper) (hB 3) (by simp [Choice.valid])).2
  have h4 := (honestRound_verifies (saltB 4, Rock) (hB 4) (by simp [Choice.valid])).2
  simp only [honestRound] at h0 h1 h2 h3 h4
  simp only [scenarioScript, List.map, honestRound, roundResults, h0, h1, h2, h3, h4,
    scenarioDraws, scenarioChoicesA]
  decide

/-- The run of peer A in the scenario, for salts of peer B without a comma. -/
theorem scenario_run (saltA saltB : Nat → GoString) (hB : ∀ i, (44 : UInt8) ∉ saltB i) :
    ∃ events, scoredResults events = [Win, Win, Win, Lose, Win] ∧
      startGame (scenarioDraws saltA) (opponentFrames (scenarioScript saltB))
        = ⟨.declared Win, 5, 4, events, []⟩ := by
  have hsplit : (scenarioScript saltB).map honestRound
      = [(saltB 0, Scissors), (saltB 1, Rock), (saltB 2, Paper), (saltB 3, Paper)].map honestRound
        ++ [honestRound (saltB 4, Rock)] := rfl
  have hres := scenario_roundResults saltA saltB hB
  have hhonest : ∀ q ∈ scenarioScript saltB, (44 : UInt8) ∉ q.1 ∧ q.2.valid := by
    intro q hq
    simp only [scenarioScript, List.mem_cons, List.mem_singleton, List.not_mem_nil,
      or_false] at hq
    rcases hq with rfl | rfl | rfl | rfl | rfl <;> exact ⟨hB _, by simp [Choice.valid]⟩
  have hverified := honestRounds_verify (scenarioScript saltB) hhonest
  have h4 := (honestRound_verifies (saltB 4, Rock) (hB 4) (by simp [Choice.valid])).2
  rw [hsplit] at hres hverified
  have hinit : roundResults (scenarioDraws saltA) 0
      ([(saltB 0, Scissors), (saltB 1, Rock), (saltB 2, Paper), (saltB 3, Paper)].map
        honestRound) = [Win, Win, Win, Lose] := by
    rw [roundResults_append] at hres
    have hlen := roundResults_length (scenarioDraws saltA)
      ([(saltB 0, Scissors), (saltB 1, Rock), (saltB 2, Paper), (saltB 3, Paper)].map
        honestRound) 0
    have hres' : roundResults (scenarioDraws saltA) 0
        ([(saltB 0, Scissors), (saltB 1, Rock), (saltB 2, Paper), (saltB 3, Paper)].map
          honestRound)
        ++ roundResults (scenarioDraws saltA)
          (0 + ([(saltB 0, Scissors), (saltB 1, Rock), (saltB 2, Paper),
            (saltB 3, Paper)].map honestRound).length) [honestRound (saltB 4, Rock)]
        = [Win, Win, Win, Lose] ++ [Win] := hres
    exact (List.append_inj hres' (by simpa using hlen)).1
  obtain ⟨events, hev, hrun⟩ := startGame_verified_finish (scenarioDraws saltA)
    ([(saltB 0, Scissors), (saltB 1, Rock), (saltB 2, Paper), (saltB 3, Paper)].map honestRound)
    (honestRound (saltB 4, Rock)) [] hverified
    (by rw [hinit]; decide)
    (by
      rw [h4]
      show analyzeResult Paper Rock ≠ Draw
      decide)
  rw [hres] at hev hrun
  rw [List.append_nil] at hrun
  refine ⟨events, hev, ?_⟩
  rw [opponentFrames, hsplit, hrun]
  rfl

/-- C10 as amended, the end-to-end scenario: when peer A draws
`[Rock, Paper, Scissors, Rock, Paper]`, peer B draws
`[Scissors, Rock, Paper, Paper, Rock]` and every commitment verifies, the
results `startGame` computes for A are, in order, Win, Win, Win, Lose, Win,
with no Draw and no replay, and the match ends after these 5 rounds with
`winCount = 4`, `roundCount = 5` and a declared Win for A. -/
theorem scenario_results (saltA saltB : Nat → GoString) (hB : ∀ i, (44 : UInt8) ∉ saltB i) :
    scoredResults (startGame (scenarioDraws saltA) (opponentFrames (scenarioScript saltB))).trace
      = [Win, Win, Win, Lose, Win] ∧
    (startGame (scenarioDraws saltA) (opponentFrames (scenarioScript saltB))).winCount = 4 ∧
    (startGame (scenarioDraws saltA) (opponentFrames (scenarioScript saltB))).roundCount = 5 ∧
    (startGame (scenarioDraws saltA) (opponentFrames (scenarioScript saltB))).outcome
      = .declared Win ∧
    (startGame (scenarioDraws saltA) (opponentFrames (scenarioScript saltB))).pending = [] := by
  obtain ⟨events, hev, hrun⟩ := scenario_run saltA saltB hB
  rw [hrun]
  exact ⟨hev, rfl, rfl, rfl, rfl⟩

theorem scenario_results_witness :
    scoredResults (startGame (scenarioDraws (fun _ => ascii "c2FsdEE="))
        (opponentFrames (scenarioScript (fun _ => ascii "c2FsdEI=")))).trace
      = [Win, Win, Win, Lose, Win] ∧
    (startGame (scenarioDraws (fun _ => ascii "c2FsdEE="))
        (opponentFrames (scenarioScript (fun _ => ascii "c2FsdEI=")))).outcome
      = .declared Win :=
  have h := scenario_results (fun _ => ascii "c2FsdEE=") (fun _ => ascii "c2FsdEI=")
    (fun _ => by show (44 : UInt8) ∉ ascii "c2FsdEI="; decide)
  ⟨h.1, h.2.2.2.1⟩

/-- C10 fails as stated: with the salts `a` for peer A and `b` for peer B, the
results of the scenario are not Win, Win, Win, Draw, Win, Lose. -/
theorem scenario_results_not_as_stated :
    scoredResults (startGame (scenarioDraws (fun _ => ascii "a"))
        (opponentFrames (scenarioScript (fun _ => ascii "b")))).trace
      ≠ [Win, Win, Win, Draw, Win, Lose] := by
  obtain ⟨events, hev, hrun⟩ := scenario_run (fun _ => ascii "a") (fun _ => ascii "b")
    (fun _ => by show (44 : UInt8) ∉ ascii "b"; decide)
  rw [hrun]
  show scoredResults events ≠ _
  rw [hev]
  decide

/-! ## Unvalidated reveals -/

theorem tmod_three_bounds (w : Int) : -2 ≤ Int.tmod w 3 ∧ Int.tmod w 3 ≤ 2 := by
  have h3 : (3 : Int) = Int.ofNat 3 := rfl
  rw [h3]
  cases w with
  | ofNat n =>
    show -2 ≤ ((n % 3 : Nat) : Int) ∧ ((n % 3 : Nat) : Int) ≤ 2
    omega
  | negSucc n =>
    show -2 ≤ -(((n + 1) % 3 : Nat) : Int) ∧ -(((n + 1) % 3 : Nat) : Int) ≤ 2
    omega

theorem analyzeResult_range (my opponent : Int) :
    (0 : Int) ≤ analyzeResult my opponent ∧ analyzeResult my opponent ≤ (2 : Int) := by
  unfold analyzeResult
  have hb := tmod_three_bounds (wrapInt (my - opponent))
  generalize Int.tmod (wrapInt (my - opponent)) 3 = t at hb
  have hw : wrapInt (t + 3) = t + 3 := by unfold wrapInt; omega
  have ht : Int.tmod (t + 3) 3 = (t + 3) % 3 := Int.tmod_eq_emod (by omega) (by decide)
  rw [hw, ht]
  exact ⟨Int.emod_nonneg _ (by decide),
    Int.lt_add_one_iff.mp (Int.emod_lt_of_pos (t + 3) (by decide))⟩

/-- C19, `analyzeResult` is total on unvalidated input: for every pair of
`Choice` values, in or out of the range 0..2 and of either sign, the result is
`Draw`, `Win` or `Lose`, that is 0, 1 or 2, and `Result.String` finds its name
in the table of 3 names. -/
theorem analyzeResult_total (myChoice opponentChoice : Choice) :
    (analyzeResult myChoice opponentChoice = Draw
      ∨ analyzeResult myChoice opponentChoice = Win
      ∨ analyzeResult myChoice opponentChoice = Lose) ∧
    (0 ≤ analyzeResult myChoice opponentChoice ∧ analyzeResult myChoice opponentChoice ≤ 2) ∧
    (Result.String (analyzeResult myChoice opponentChoice)).isSome = true := by
  have h := analyzeResult_range myChoice opponentChoice
  have hcases : analyzeResult myChoice opponentChoice = 0
      ∨ analyzeResult myChoice opponentChoice = 1
      ∨ analyzeResult myChoice opponentChoice = 2 := by
    have hint : ∀ r : Int, 0 ≤ r ∧ r ≤ 2 → r = 0 ∨ r = 1 ∨ r = 2 := by
      intro r hr
      omega
    exact hint _ h
  refine ⟨hcases, h, ?_⟩
  rcases hcases with e | e | e <;> rw [e] <;> decide

/-- A call of `startGame` that is given the two frames of one round, the
reveal verifying: the round is scored and the next commitment is awaited. -/
theorem startGame_one_round (draws : Nat → Choice × GoString) (c r os : GoString)
    (oc : Choice) (hparse : parseReveal r = some (os, oc))
    (hcheck : checkCommitment os oc c = true) :
    (startGame draws [c, r]).winCount
        = (if analyzeResult (draws 0).1 oc = Win then 1 else 0) ∧
      (startGame draws [c, r]).roundCount
        = (if analyzeResult (draws 0).1 oc ≠ Draw then 1 else 0) ∧
      scoredResults (startGame draws [c, r]).trace = [analyzeResult (draws 0).1 oc] := by
  rw [startGame, gameLoop_scored draws c r [] 0 0 0 [] os oc (by decide) hparse hcheck]
  rw [gameLoop]
  have hlt : ∀ x : Nat, (if analyzeResult (draws 0).1 oc ≠ Draw then 0 + 1 else 0) = x →
      x < MAX_ROUNDS := by
    intro x hx
    rw [← hx]
    split <;> decide
  simp only [hlt _ rfl, if_true, Nat.zero_add]
  simp [scoredResults_append, scoredResults]

/-- C11, a malformed reveal is rejected and never scored, fails on the code.
The error of `Atoi` is dropped and fields after the second are ignored: against
the commitment of `("s", Rock)` the reveals `s,x` and `s,0,junk` are read as
`("s", Rock)`, pass `checkCommitment` and are scored, here as a Win for a
local player who chose `Paper`. A reveal with no comma makes `s[1]` panic. -/
theorem malformed_reveal_is_scored :
    Atoi (ascii "x") = (0, true) ∧
    parseReveal (ascii "s,x") = some (ascii "s", Rock) ∧
    (startGame (constDraws Paper (ascii "a"))
      [generateCommitment (ascii "s") Rock, ascii "s,x"]).winCount = 1 ∧
    (startGame (constDraws Paper (ascii "a"))
      [generateCommitment (ascii "s") Rock, ascii "s,x"]).roundCount = 1 ∧
    splitOn 44 (ascii "s,0,junk") = [ascii "s", ascii "0", ascii "junk"] ∧
    parseReveal (ascii "s,0,junk") = some (ascii "s", Rock) ∧
    (startGame (constDraws Paper (ascii "a"))
      [generateCommitment (ascii "s") Rock, ascii "s,0,junk"]).winCount = 1 ∧
    (startGame (constDraws Paper (ascii "a"))
      [generateCommitment (ascii "s") Rock, ascii "s,0,junk"]).roundCount = 1 ∧
    parseReveal (ascii "s") = none ∧
    (startGame (constDraws Paper (ascii "a"))
      [generateCommitment (ascii "s") Rock, ascii "s"]).outcome = .panicked := by
  have hx : parseReveal (ascii "s,x") = some (ascii "s", Rock) := by decide
  have hj : parseReveal (ascii "s,0,junk") = some (ascii "s", Rock) := by decide
  have hs : parseReveal (ascii "s") = none := by decide
  have hw : analyzeResult (constDraws Paper (ascii "a") 0).1 Rock = Win := by decide
  have h1 := startGame_one_round (constDraws Paper (ascii "a"))
    (generateCommitment (ascii "s") Rock) (ascii "s,x") (ascii "s") Rock hx
    (checkCommitment_self _ _)
  have h2 := startGame_one_round (constDraws Paper (ascii "a"))
    (generateCommitment (ascii "s") Rock) (ascii "s,0,junk") (ascii "s") Rock hj
    (checkCommitment_self _ _)
  rw [hw] at h1 h2
  refine ⟨by decide, hx, h1.1, h1.2.1, by decide, hj, h2.1, h2.2.1, hs, ?_⟩
  rw [startGame, gameLoop]
  simp [MAX_ROUNDS, hs]

/-! ## Honest peers -/

/-- When every reveal verifies, `startGame` ends with a declaration or waits
for the next frame: it neither aborts nor panics. -/
theorem gameLoop_verified_outcome (draws : Nat → Choice × GoString) :
    ∀ (rounds : List (GoString × GoString)) (iter rc wc : Nat) (trace : List Event),
      (∀ p ∈ rounds, revealVerifies p.1 p.2 = true) →
      (gameLoop draws (roundFrames rounds) iter rc wc trace).outcome = .blocked
        ∨ ∃ d, (gameLoop draws (roundFrames rounds) iter rc wc trace).outcome = .declared d := by
  intro rounds
  induction rounds with
  | nil =>
    intro iter rc wc trace _
    rw [roundFrames, gameLoop]
    split
    · exact Or.inl rfl
    · exact Or.inr ⟨_, rfl⟩
  | cons p rounds ih =>
    intro iter rc wc trace verified
    obtain ⟨c, r⟩ := p
    by_cases hrc : rc < MAX_ROUNDS
    · rw [roundFrames, gameLoop_verified_round draws c r (roundFrames rounds) iter rc wc trace
        hrc (verified (c, r) (by simp))]
      exact ih _ _ _ _ (fun q hq => verified q (by simp [hq]))
    · rw [gameLoop_done draws _ iter rc wc trace (by omega)]
      exact Or.inr ⟨_, rfl⟩

/-- C17, an honest reveal always verifies: for a salt without a comma and a
valid choice, the reveal frame `salt,choice` splits into the salt and the
decimal ordinal, `Atoi` gives the choice back, `checkCommitment` accepts the
parsed pair against the commitment of the same pair, the round is scored from
any state of the loop with budget left, and a match against an opponent all of
whose rounds are of this kind neither aborts nor panics. -/
theorem honest_reveal_verifies (salt : GoString) (choice : Choice)
    (hsalt : (44 : UInt8) ∉ salt) (hchoice : choice.valid) :
    splitOn 44 (revealFrame salt choice) = [salt, formatInt choice] ∧
    (Atoi (formatInt choice)).1 = choice ∧
    parseReveal (revealFrame salt choice) = some (salt, choice) ∧
    checkCommitment salt choice (generateCommitment salt choice) = true ∧
    (∀ (draws : Nat → Choice × GoString) (rest : List GoString) (iter roundCount winCount : Nat)
        (trace : List Event), roundCount < MAX_ROUNDS →
        gameLoop draws (generateCommitment salt choice :: revealFrame salt choice :: rest)
            iter roundCount winCount trace
          = gameLoop draws rest (iter + 1)
              (if analyzeResult (draws iter).1 choice ≠ Draw then roundCount + 1
                else roundCount)
              (if analyzeResult (draws iter).1 choice = Win then winCount + 1 else winCount)
              (trace ++ [.sent (generateCommitment (draws iter).2 (draws iter).1),
                .received (generateCommitment salt choice),
                .sent (revealFrame (draws iter).2 (draws iter).1),
                .received (revealFrame salt choice),
                .scored roundCount (analyzeResult (draws iter).1 choice)])) ∧
    (∀ (draws : Nat → Choice × GoString) (script : List (GoString × Choice)),
        (∀ q ∈ script, (44 : UInt8) ∉ q.1 ∧ q.2.valid) →
        (startGame draws (opponentFrames script)).outcome ≠ .aborted ∧
        (startGame draws (opponentFrames script)).outcome ≠ .panicked) := by
  have hparse := parseReveal_revealFrame salt choice hsalt hchoice
  have hfmt : splitOn 44 (formatInt choice) = [formatInt choice]
      ∧ (Atoi (formatInt choice)).1 = choice := by
    rcases hchoice with rfl | rfl | rfl <;> decide
  refine ⟨?_, hfmt.2, hparse, checkCommitment_self salt choice, ?_, ?_⟩
  · unfold revealFrame
    rw [splitOn_append_sep _ _ _ hsalt, hfmt.1]
  · intro draws rest iter rc wc trace hrc
    exact gameLoop_scored draws _ _ rest iter rc wc trace salt choice hrc hparse
      (checkCommitment_self salt choice)
  · intro draws script honest
    have h := gameLoop_verified_outcome draws (script.map honestRound) 0 0 0 []
      (honestRounds_verify script honest)
    rw [startGame, opponentFrames]
    rcases h with h | ⟨d, h⟩ <;> rw [h] <;> simp

theorem honest_reveal_verifies_witness :
    parseReveal (revealFrame (ascii "c2FsdA==") Scissors) = some (ascii "c2FsdA==", Scissors) ∧
      checkCommitment (ascii "c2FsdA==") Scissors
        (generateCommitment (ascii "c2FsdA==") Scissors) = true :=
  have h := honest_reveal_verifies (ascii "c2FsdA==") Scissors (by decide) (by decide)
  ⟨h.2.2.1, h.2.2.2.1⟩

/-! ## The stream reader -/

theorem readString_line (line : GoString) (rest : List UInt8) (h : (10 : UInt8) ∉ line) :
    readString (line ++ 10 :: rest) = (line ++ [10], rest) := by
  induction line with
  | nil => simp [readString]
  | cons b line ih =>
    have hb : b ≠ 10 := fun e => h (by simp [e])
    have hl : (10 : UInt8) ∉ line := fun e => h (by simp [e])
    simp [readString, hb, ih hl]

theorem readString_unterminated (tail : GoString) (h : (10 : UInt8) ∉ tail) :
    readString tail = (tail, []) := by
  induction tail with
  | nil => rfl
  | cons b tail ih =>
    have hb : b ≠ 10 := fun e => h (by simp [e])
    have hl : (10 : UInt8) ∉ tail := fun e => h (by simp [e])
    simp [readString, hb, ih hl]

theorem readString_length (stream : List UInt8) :
    (readString stream).1.length + (readString stream).2.length = stream.length := by
  induction stream with
  | nil => rfl
  | cons b stream ih =>
    by_cases hb : b = 10
    · simp [readString, hb]; omega
    · simp [readString, hb]; omega

theorem readString_eq_nil (stream : List UInt8) (h : (readString stream).1 = []) :
    stream = [] := by
  cases stream with
  | nil => rfl
  | cons b stream =>
    by_cases hb : b = 10 <;> simp [readString, hb] at h

/-- The loop of `readMsg` returns within one call of `ReadString` more than
the stream has bytes. -/
theorem readLoop_isSome :
    ∀ (fuel : Nat) (stream : List UInt8), stream.length < fuel →
      (readLoop fuel stream).isSome = true := by
  intro fuel
  induction fuel with
  | zero => intro stream h; omega
  | succ fuel ih =>
    intro stream h
    rw [readLoop]
    by_cases hnil : (readString stream).1 = []
    · simp [hnil]
    · have hlen := readString_length stream
      have hpos : 0 < (readString stream).1.length := List.length_pos.mpr hnil
      have hrec := ih (readString stream).2 (by omega)
      simp only [hnil, if_false]
      split
      · simp [hrec]
      · exact hrec

/-- More calls of `ReadString` than needed do not change what is pushed. -/
theorem readLoop_mono :
    ∀ (fuel : Nat) (stream : List UInt8) (pushed : List GoString),
      readLoop fuel stream = some pushed →
      ∀ more, readLoop (fuel + more) stream = some pushed := by
  intro fuel
  induction fuel with
  | zero => intro stream pushed h; simp [readLoop] at h
  | succ fuel ih =>
    intro stream pushed h more
    rw [Nat.add_right_comm, readLoop]
    rw [readLoop] at h
    by_cases hnil : (readString stream).1 = []
    · simpa [hnil] using h
    · simp only [hnil, if_false] at h ⊢
      by_cases hnl : (readString stream).1 = [10]
      · simp only [hnl, ne_eq, not_true_eq_false, if_false] at h ⊢
        exact ih _ _ h more
      · simp only [ne_eq, hnl, not_false_eq_true, if_true] at h ⊢
        cases hrec : readLoop fuel (readString stream).2 with
        | none => simp [hrec] at h
        | some tail =>
          rw [hrec] at h
          rw [ih _ _ hrec more]
          exact h

theorem joinLines_length (lines : List GoString) :
    lines.length ≤ (joinLines lines).length := by
  induction lines with
  | nil => simp [joinLines]
  | cons line lines ih => simp [joinLines]; omega

/-- On a stream of newline-terminated lines, followed by a last segment
`tail` without newline, the loop pushes the non-empty lines and then the
segment `tail` without its last byte, if `tail` is not empty. -/
theorem readLoop_joinLines (tail : GoString) (htail : (10 : UInt8) ∉ tail) :
    ∀ (lines : List GoString) (fuel : Nat), (∀ l ∈ lines, (10 : UInt8) ∉ l) →
      lines.length + 2 ≤ fuel →
      readLoop fuel (joinLines lines ++ tail)
        = some (lines.filter (fun l => l ≠ [])
            ++ (if tail = [] then [] else [tail.dropLast])) := by
  intro lines
  induction lines with
  | nil =>
    intro fuel _ hfuel
    obtain ⟨fuel, rfl⟩ : ∃ f, fuel = f + 2 := ⟨fuel - 2, by simp at hfuel; omega⟩
    simp only [joinLines, List.nil_append, List.filter_nil]
    rw [readLoop, readString_unterminated tail htail]
    by_cases ht : tail = []
    · simp [ht]
    · have hne : tail ≠ [10] := fun e => htail (by simp [e])
      simp only [ht, if_false, ne_eq, hne, not_false_eq_true, if_true]
      rw [readLoop]
      simp [readString]
  | cons line lines ih =>
    intro fuel hlines hfuel
    obtain ⟨fuel, rfl⟩ : ∃ f, fuel = f + 1 := ⟨fuel - 1, by simp at hfuel; omega⟩
    have hl : (10 : UInt8) ∉ line := hlines line (by simp)
    have hrest : ∀ l ∈ lines, (10 : UInt8) ∉ l := fun l h => hlines l (by simp [h])
    have hrec := ih fuel hrest (by simp at hfuel; omega)
    simp only [joinLines, List.append_assoc, List.cons_append]
    rw [readLoop, readString_line line _ hl]
    by_cases hline : line = []
    · simp [hline, hrec]
    · have h1 : line ++ [10] ≠ [] := by simp
      have h2 : line ++ [10] ≠ [10] := by
        intro e
        have := congrArg List.length e
        simp at this
        exact hline this
      simp [h2, hline, hrec]

/-- C16, frame decoding preserves content and order: on a stream that is a
concatenation of newline-terminated lines, `readMsg` pushes onto the channel
exactly the lines that are not empty, in the order of the stream, each without
its newline and otherwise unchanged, and returns at the end of the stream. -/
theorem readMsg_lines (lines : List GoString) (hlines : ∀ l ∈ lines, (10 : UInt8) ∉ l) :
    readMsg (joinLines lines) = some (lines.filter (fun l => l ≠ [])) := by
  have h := readLoop_joinLines [] (by simp) lines (lines.length + 2) hlines (Nat.le_refl _)
  simp only [List.append_nil, if_true] at h
  have hsome := readLoop_isSome ((joinLines lines).length + 1) (joinLines lines) (by omega)
  obtain ⟨pushed, hp⟩ := Option.isSome_iff_exists.mp hsome
  have hmono := readLoop_mono _ _ _ hp (lines.length + 2)
  have hmono' := readLoop_mono _ _ _ h ((joinLines lines).length + 1)
  rw [Nat.add_comm] at hmono'
  rw [hmono] at hmono'
  rw [readMsg, hp, hmono']

theorem readMsg_lines_witness :
    readMsg (joinLines [ascii "commitment", [], ascii "salt,2"])
      = some ([ascii "commitment", [], ascii "salt,2"].filter (fun l => l ≠ [])) ∧
    [ascii "commitment", [], ascii "salt,2"].filter (fun l => l ≠ [])
      = [ascii "commitment", ascii "salt,2"] :=
  ⟨readMsg_lines [ascii "commitment", [], ascii "salt,2"] (by decide), by decide⟩

/-- C20, `readMsg` never truncates data, fails on the code: of a last segment
that the stream ends without a newline, `readMsg` drops the last byte.
On the stream `abc` it pushes `ab`; on `commitment`, newline, `salt,2` it
pushes `commitment` and `salt,`. -/
theorem readMsg_truncates_unterminated :
    readString (ascii "abc") = (ascii "abc", []) ∧
    readMsg (ascii "abc") = some [ascii "ab"] ∧
    readMsg (joinLines [ascii "commitment"] ++ ascii "salt,2")
      = some [ascii "commitment", ascii "salt,"] := by
  decide

/-! ## The discovery of an opponent -/

theorem isCandidate_true (host : Host) (v : GoString) (h : isCandidate host v = some true) :
    v ≠ host.ID ∧ ∃ bootstrap,
      (splitOn 47 host.HARDCODED_BOOTSTRAP_NODE)[6]? = some bootstrap
        ∧ host.Pretty v ≠ bootstrap := by
  unfold isCandidate at h
  by_cases hv : v = host.ID
  · simp [hv] at h
  · simp only [ne_eq, hv, not_false_eq_true, if_true] at h
    cases hb : (splitOn 47 host.HARDCODED_BOOTSTRAP_NODE)[6]? with
    | none => simp [hb] at h
    | some bootstrap =>
      simp only [hb, Option.some.injEq, decide_eq_true_eq] at h
      exact ⟨hv, bootstrap, rfl, h⟩

theorem scanPeers_found (host : Host) :
    ∀ (peers : List GoString) (tryCount : Nat) (v : GoString) (tries : Nat),
      scanPeers host peers tryCount = .found v tries →
      isCandidate host v = some true ∧
        ∃ before after, peers = before ++ v :: after
          ∧ (∀ u ∈ before, isCandidate host u = some false)
          ∧ tries = tryCount + before.length := by
  intro peers
  induction peers with
  | nil => intro tryCount v tries h; simp [scanPeers] at h
  | cons u peers ih =>
    intro tryCount v tries h
    rw [scanPeers] at h
    cases hu : isCandidate host u with
    | none => simp [hu] at h
    | some b =>
      cases b with
      | true =>
        simp only [hu, Scan.found.injEq] at h
        obtain ⟨rfl, rfl⟩ := h
        exact ⟨hu, [], peers, rfl, by simp, by simp⟩
      | false =>
        simp only [hu] at h
        obtain ⟨hc, before, after, hsplit, hbefore, htries⟩ := ih _ _ _ h
        refine ⟨hc, u :: before, after, by simp [hsplit], ?_, by simp [htries]; omega⟩
        intro w hw
        rcases List.mem_cons.mp hw with rfl | hw
        · exact hu
        · exact hbefore w hw

theorem scanPeers_no_candidate (host : Host) :
    ∀ (peers : List GoString) (tryCount : Nat),
      (∀ u ∈ peers, isCandidate host u = some false) →
      scanPeers host peers tryCount = .exhausted (tryCount + peers.length) := by
  intro peers
  induction peers with
  | nil => intro tryCount _; rfl
  | cons u peers ih =>
    intro tryCount h
    rw [scanPeers, h u (by simp), ih _ (fun w hw => h w (by simp [hw]))]
    simp only [List.length_cons]
    congr 1
    omega

theorem waitLoop_found (host : Host) (snapshots : Nat → List GoString) :
    ∀ (fuel k tryCount : Nat) (v : GoString) (tries scans : Nat),
      waitLoop host snapshots fuel k tryCount = some (.found v tries scans) →
      k < scans ∧ ∃ before, scanPeers host (snapshots (scans - 1)) before = .found v tries := by
  intro fuel
  induction fuel with
  | zero => intro k tryCount v tries scans h; simp [waitLoop] at h
  | succ fuel ih =>
    intro k tryCount v tries scans h
    rw [waitLoop] at h
    split at h
    · simp at h
    · cases hs : scanPeers host (snapshots k) tryCount with
      | panicked => simp [hs] at h
      | found w t =>
        simp only [hs, Option.some.injEq, Discovery.found.injEq] at h
        obtain ⟨rfl, rfl, rfl⟩ := h
        exact ⟨by omega, tryCount, by simpa using hs⟩
      | exhausted t =>
        simp only [hs] at h
        obtain ⟨hk, before, hscan⟩ := ih _ _ _ _ _ h
        exact ⟨by omega, before, hscan⟩

/-- An opponent in the first snapshot is found, whatever stands before it. -/
theorem waitForOpponent_finds (host : Host) (snapshots : Nat → List GoString) (fuel : Nat)
    (before after : List GoString) (v : GoString)
    (hsnap : snapshots 0 = before ++ v :: after)
    (hbefore : ∀ u ∈ before, isCandidate host u = some false)
    (hv : isCandidate host v = some true) :
    waitForOpponent host snapshots (fuel + 1) = some (.found v before.length 1) := by
  have hscan : ∀ (l : List GoString) (t : Nat), (∀ u ∈ l, isCandidate host u = some false) →
      scanPeers host (l ++ v :: after) t = .found v (t + l.length) := by
    intro l
    induction l with
    | nil => intro t _; simp [scanPeers, hv]
    | cons u l ih =>
      intro t hl
      rw [List.cons_append, scanPeers, hl u (by simp), ih _ (fun w hw => hl w (by simp [hw]))]
      simp only [List.length_cons]
      congr 1
      omega
  rw [waitForOpponent, waitLoop, hsnap, hscan before 0 hbefore]
  simp [timeoutTries]

/-- C13, opponent selection filters and takes the first candidate: when
`waitForOpponent` reports an opponent as found, this opponent is not the local
identity, its `Pretty` form is not the bootstrap identity, and in the snapshot
that was being scanned every peer before it failed the test, so that it is the
first peer of that snapshot that is neither of the two. -/
theorem found_opponent_is_first_candidate (host : Host) (snapshots : Nat → List GoString)
    (fuel : Nat) (opponent : GoString) (tryCount scans : Nat)
    (hfound : waitForOpponent host snapshots fuel = some (.found opponent tryCount scans)) :
    opponent ≠ host.ID ∧
    (∃ bootstrap, (splitOn 47 host.HARDCODED_BOOTSTRAP_NODE)[6]? = some bootstrap
      ∧ host.Pretty opponent ≠ bootstrap) ∧
    0 < scans ∧
    ∃ before after, snapshots (scans - 1) = before ++ opponent :: after
      ∧ (∀ u ∈ before, isCandidate host u = some false)
      ∧ (∀ u ∈ before, u = host.ID ∨
          (splitOn 47 host.HARDCODED_BOOTSTRAP_NODE)[6]? = some (host.Pretty u)) := by
  obtain ⟨hk, t, hscan⟩ := waitLoop_found host snapshots fuel 0 0 opponent tryCount scans hfound
  obtain ⟨hc, before, after, hsplit, hbefore, _⟩ := scanPeers_found host _ _ _ _ hscan
  obtain ⟨hid, hboot⟩ := isCandidate_true host opponent hc
  refine ⟨hid, hboot, hk, before, after, hsplit, hbefore, ?_⟩
  intro u hu
  have h := hbefore u hu
  unfold isCandidate at h
  by_cases hself : u = host.ID
  · exact Or.inl hself
  · simp only [ne_eq, hself, not_false_eq_true, if_true] at h
    cases hb : (splitOn 47 host.HARDCODED_BOOTSTRAP_NODE)[6]? with
    | none => simp [hb] at h
    | some bootstrap =>
      simp only [hb, Option.some.injEq, decide_eq_false_iff_not, not_not] at h
      exact Or.inr (by rw [h])

theorem found_opponent_is_first_candidate_witness :
    waitForOpponent exampleHost
        (fun k => if k < 3 then [ascii "me"]
          else [ascii "me", ascii "boot", ascii "you", ascii "they"]) 200
      = some (.found (ascii "you") 5 4) ∧
    ascii "you" ≠ exampleHost.ID ∧
    (∃ before after,
      (fun k => if k < 3 then [ascii "me"]
          else [ascii "me", ascii "boot", ascii "you", ascii "they"]) (4 - 1)
        = before ++ ascii "you" :: after
      ∧ (∀ u ∈ before, isCandidate exampleHost u = some false)
      ∧ (∀ u ∈ before, u = exampleHost.ID ∨
          (splitOn 47 exampleHost.HARDCODED_BOOTSTRAP_NODE)[6]?
            = some (exampleHost.Pretty u))) :=
  have hrun : waitForOpponent exampleHost
      (fun k => if k < 3 then [ascii "me"]
        else [ascii "me", ascii "boot", ascii "you", ascii "they"]) 200
      = some (.found (ascii "you") 5 4) := by decide
  have h := found_opponent_is_first_candidate exampleHost _ 200 (ascii "you") 5 4 hrun
  ⟨hrun, h.1, h.2.2.2⟩

/-- With no peer in any snapshot the outer loop of `waitForOpponent` goes on
for ever: `tryCount` stays 0 and nothing sleeps. -/
theorem waitLoop_empty_snapshots (host : Host) (snapshots : Nat → List GoString)
    (hempty : ∀ k, snapshots k = []) :
    ∀ fuel k, waitLoop host snapshots fuel k 0 = none := by
  intro fuel
  induction fuel with
  | zero => intro k; rfl
  | succ fuel ih =>
    intro k
    rw [waitLoop, hempty k]
    simp [timeoutTries, scanPeers, ih]

/-- When every snapshot holds at least one peer and none that passes the
test, `waitForOpponent` gives up: it returns within `timeoutTries` snapshots,
with `tryCount` at least `timeoutTries`, and less than `timeoutTries + m` when
no snapshot has more than `m` peers. -/
theorem waitLoop_gives_up (host : Host) (snapshots : Nat → List GoString) (m : Nat)
    (hpeers : ∀ k, snapshots k ≠ [] ∧ (snapshots k).length ≤ m
      ∧ ∀ u ∈ snapshots k, isCandidate host u = some false) :
    ∀ (fuel k tryCount : Nat), timeoutTries - tryCount < fuel → tryCount < timeoutTries + m →
      ∃ tries scans, waitLoop host snapshots fuel k tryCount = some (.timeout tries scans)
        ∧ timeoutTries ≤ tries ∧ tries < timeoutTries + m
        ∧ scans ≤ k + (timeoutTries - tryCount) := by
  intro fuel
  induction fuel with
  | zero => intro k tryCount h; omega
  | succ fuel ih =>
    intro k tryCount hfuel hm
    rw [waitLoop]
    by_cases ht : tryCount ≥ timeoutTries
    · exact ⟨tryCount, k, by simp [ht], ht, hm, by omega⟩
    · obtain ⟨hne, hlen, hno⟩ := hpeers k
      have hpos : 0 < (snapshots k).length := List.length_pos.mpr hne
      simp only [ht, if_false, scanPeers_no_candidate host _ tryCount hno]
      obtain ⟨tries, scans, hrun, h1, h2, h3⟩ :=
        ih (k + 1) (tryCount + (snapshots k).length) (by omega) (by omega)
      exact ⟨tries, scans, hrun, h1, h2, by omega⟩

/-- C14, bounded discovery with at most 150 attempts, fails on the code. The
limit is tested only between two snapshots: with the snapshot `[me]` first and
`[me, boot]` from then on, `tryCount` runs through the odd numbers and the
timeout comes after 151 attempts, each followed by a sleep. And when the
snapshots hold no peer at all, no attempt is counted, nothing sleeps, and the
loop never ends. -/
theorem discovery_bound_missed :
    waitForOpponent exampleHost
        (fun k => if k = 0 then [ascii "me"] else [ascii "me", ascii "boot"]) 77
      = some (.timeout 151 76) ∧
    (∀ fuel, waitForOpponent exampleHost (fun _ => []) fuel = none) := by
  refine ⟨by decide, ?_⟩
  intro fuel
  exact waitLoop_empty_snapshots exampleHost _ (fun _ => rfl) fuel 0

/-! ## `StartPlaying` -/

/-- The first thing `startGame` does, whatever it is given, is to send a
commitment. -/
theorem startGame_trace_head (draws : Nat → Choice × GoString) (inbox : List GoString) :
    ∃ rest, (startGame draws inbox).trace
      = .sent (generateCommitment (draws 0).2 (draws 0).1) :: rest := by
  have hgen : ∀ (n : Nat) (inbox : List GoString) (iter rc wc : Nat) (e : Event)
      (trace : List Event), inbox.length ≤ n →
      ∃ rest, (gameLoop draws inbox iter rc wc (e :: trace)).trace = e :: rest := by
    intro n
    induction n with
    | zero =>
      intro inbox iter rc wc e trace hlen
      have : inbox = [] := List.length_eq_zero.mp (Nat.le_zero.mp hlen)
      subst this
      rw [gameLoop]
      split <;> simp
    | succ n ih =>
      intro inbox iter rc wc e trace hlen
      rw [gameLoop]
      split
      · match inbox, hlen with
        | [], _ => simp
        | [c], _ => simp
        | c :: r :: rest, hlen =>
          simp only
          split
          · simp
          · split
            · simp
            · simp only [List.cons_append]
              exact ih _ _ _ _ _ _ (by simp at hlen; omega)
      · simp
  rw [startGame, gameLoop]
  simp only [show (0 : Nat) < MAX_ROUNDS by decide, if_true]
  match inbox with
  | [] => exact ⟨[], by simp⟩
  | [c] => exact ⟨_, by simp; rfl⟩
  | c :: r :: rest =>
    simp only
    split
    · exact ⟨_, by simp; rfl⟩
    · split
      · exact ⟨_, by simp; rfl⟩
      · simp only [List.nil_append, List.cons_append]
        exact hgen rest.length rest _ _ _ _ _ (Nat.le_refl _)

/-- After a timeout of the discovery `StartPlaying` calls `startGame` all the
same. -/
theorem StartPlaying_after_timeout (host : Host) (snapshots : Nat → List GoString)
    (fuel : Nat) (draws : Nat → Choice × GoString) (inbox : List GoString)
    (tries scans : Nat)
    (h : waitForOpponent host snapshots fuel = some (.timeout tries scans)) :
    StartPlaying host snapshots fuel draws inbox
      = some (.timeout tries scans, some (startGame draws inbox)) := by
  simp [StartPlaying, h]

/-- C12, a discovery timeout aborts the session before any round, fails on
the code: `StartPlaying` does not look at how `waitForOpponent` ended. With the
local peer alone in the peer directory the discovery times out after 150
attempts, and `startGame` is entered with the zero `peer.ID` as opponent: it
generates a commitment, gives it to `p2p.SendString` and waits for a frame. -/
theorem timeout_still_plays :
    waitForOpponent exampleHost (fun _ => [ascii "me"]) 151 = some (.timeout 150 150) ∧
    Discovery.opponent (.timeout 150 150) = some [] ∧
    StartPlaying exampleHost (fun _ => [ascii "me"]) 151 (constDraws Rock (ascii "a")) []
      = some (.timeout 150 150, some (startGame (constDraws Rock (ascii "a")) [])) ∧
    (startGame (constDraws Rock (ascii "a")) []).trace
      = [.sent (generateCommitment (ascii "a") Rock)] ∧
    (startGame (constDraws Rock (ascii "a")) []).outcome = .blocked := by
  have h : waitForOpponent exampleHost (fun _ => [ascii "me"]) 151
      = some (.timeout 150 150) := by decide
  refine ⟨h, rfl, StartPlaying_after_timeout _ _ _ _ _ _ _ h, ?_, ?_⟩
  · rw [startGame, gameLoop]
    simp [MAX_ROUNDS, constDraws]
  · rw [startGame, gameLoop]
    simp [MAX_ROUNDS]

/-! ## The order of commit and reveal -/

theorem protocolRun_append (draws : Nat → Choice × GoString) :
    ∀ (a b : List Event) (state : Phase × Nat),
      protocolRun draws state (a ++ b)
        = (protocolRun draws state a).bind (fun next => protocolRun draws next b) := by
  intro a
  induction a with
  | nil => intro b state; rfl
  | cons e a ih =>
    intro b state
    simp only [List.cons_append, protocolRun]
    cases protocolStep draws state e with
    | none => rfl
    | some next => exact ih b next

theorem receivedFrames_append (a b : List Event) :
    receivedFrames (a ++ b) = receivedFrames a ++ receivedFrames b := by
  induction a with
  | nil => rfl
  | cons e a ih => cases e <;> simp [receivedFrames, ih]

/-- From the start of a round the loop keeps to the order of the
specification's rounds. -/
theorem gameLoop_protocol (draws : Nat → Choice × GoString) :
    ∀ (n : Nat) (inbox : List GoString) (iter rc wc : Nat) (trace : List Event),
      inbox.length ≤ n →
      protocolRun draws (.idle, 0) trace = some (.idle, iter) →
      ∃ phase i, protocolRun draws (.idle, 0) (gameLoop draws inbox iter rc wc trace).trace
          = some (phase, i) ∧ phase ≠ .commitReceived := by
  intro n
  induction n with
  | zero =>
    intro inbox iter rc wc trace hlen hinv
    have : inbox = [] := List.length_eq_zero.mp (Nat.le_zero.mp hlen)
    subst this
    rw [gameLoop]
    split
    · exact ⟨.awaitingOpponentCommit, iter,
        by simp [protocolRun_append, hinv, protocolRun, protocolStep], by decide⟩
    · exact ⟨.idle, iter, hinv, by decide⟩
  | succ n ih =>
    intro inbox iter rc wc trace hlen hinv
    rw [gameLoop]
    split
    · match inbox, hlen with
      | [], _ =>
        exact ⟨.awaitingOpponentCommit, iter,
          by simp [protocolRun_append, hinv, protocolRun, protocolStep], by decide⟩
      | [c], _ =>
        exact ⟨.awaitingOpponentReveal, iter,
          by simp [protocolRun_append, hinv, protocolRun, protocolStep], by decide⟩
      | c :: r :: rest, hlen =>
        have hround : protocolRun draws (.idle, 0)
            (trace ++ [.sent (generateCommitment (draws iter).2 (draws iter).1), .received c,
              .sent (revealFrame (draws iter).2 (draws iter).1), .received r])
            = some (.verifying, iter) := by
          simp [protocolRun_append, hinv, protocolRun, protocolStep]
        simp only
        split
        · exact ⟨.verifying, iter, hround, by decide⟩
        · split
          · exact ⟨.verifying, iter, hround, by decide⟩
          · apply ih
            · simp at hlen; omega
            · rw [protocolRun_append, hround]
              simp [protocolRun, protocolStep]
    · exact ⟨.idle, iter, hinv, by decide⟩

/-- The frames received and the frames left are the frames that arrived. -/
theorem gameLoop_received (draws : Nat → Choice × GoString) :
    ∀ (n : Nat) (inbox : List GoString) (iter rc wc : Nat) (trace : List Event),
      inbox.length ≤ n →
      receivedFrames (gameLoop draws inbox iter rc wc trace).trace
          ++ (gameLoop draws inbox iter rc wc trace).pending
        = receivedFrames trace ++ inbox := by
  intro n
  induction n with
  | zero =>
    intro inbox iter rc wc trace hlen
    have : inbox = [] := List.length_eq_zero.mp (Nat.le_zero.mp hlen)
    subst this
    rw [gameLoop]
    split <;> simp [receivedFrames_append, receivedFrames]
  | succ n ih =>
    intro inbox iter rc wc trace hlen
    rw [gameLoop]
    split
    · match inbox, hlen with
      | [], _ => simp [receivedFrames_append, receivedFrames]
      | [c], _ => simp [receivedFrames_append, receivedFrames]
      | c :: r :: rest, hlen =>
        simp only
        split
        · simp [receivedFrames_append, receivedFrames]
        · split
          · simp [receivedFrames_append, receivedFrames]
          · rw [ih _ _ _ _ _ (by simp at hlen; omega)]
            simp [receivedFrames_append, receivedFrames]
    · simp

/-- C15, commit precedes reveal in every round: the trace of every call of
`startGame` is accepted by the specification's rounds, in which the own
commitment of the round is sent first, then exactly one frame is received,
then the own reveal `salt,choice` of the same round is sent, then one frame is
received and the round is scored; the trace never ends between the receipt of
the opponent's commitment and the sending of the reveal, and the frames
received are, in order, the frames that arrived, none skipped. -/
theorem commit_precedes_reveal (draws : Nat → Choice × GoString) (inbox : List GoString) :
    (∃ phase i, protocolRun draws (.idle, 0) (startGame draws inbox).trace = some (phase, i)
      ∧ phase ≠ .commitReceived) ∧
    receivedFrames (startGame draws inbox).trace ++ (startGame draws inbox).pending = inbox :=
  ⟨gameLoop_protocol draws inbox.length inbox 0 0 0 [] (Nat.le_refl _) rfl,
    by simpa [receivedFrames] using
      gameLoop_received draws inbox.length inbox 0 0 0 [] (Nat.le_refl _)⟩

/-! ## Two honest peers -/

theorem analyzeResult_mirror (a b : Choice) (ha : a.valid) (hb : b.valid) :
    analyzeResult b a = mirror (analyzeResult a b) := by
  rcases ha with rfl | rfl | rfl <;> rcases hb with rfl | rfl | rfl <;> decide

theorem analyzeResult_valid_cases (a b : Choice) (ha : a.valid) (hb : b.valid) :
    analyzeResult a b = Draw ∨ analyzeResult a b = Win ∨ analyzeResult a b = Lose := by
  rcases ha with rfl | rfl | rfl <;> rcases hb with rfl | rfl | rfl <;> decide

theorem scoredRounds_append (a b : List Event) :
    scoredRounds (a ++ b) = scoredRounds a ++ scoredRounds b := by
  induction a with
  | nil => rfl
  | cons e a ih => cases e <;> simp [scoredRounds, ih]

theorem drawsOf_getElem (script : List (GoString × Choice)) (k : Nat) (hk : k < script.length) :
    drawsOf script k = ((script.get ⟨k, hk⟩).2, (script.get ⟨k, hk⟩).1) := by
  unfold drawsOf
  rw [List.getElem?_eq_getElem hk]

theorem opponentFrames_drop (script : List (GoString × Choice)) (k : Nat)
    (hk : k < script.length) :
    opponentFrames (script.drop k)
      = generateCommitment (script.get ⟨k, hk⟩).1 (script.get ⟨k, hk⟩).2
        :: revealFrame (script.get ⟨k, hk⟩).1 (script.get ⟨k, hk⟩).2
        :: opponentFrames (script.drop (k + 1)) := by
  rw [List.drop_eq_getElem_cons hk]
  rfl

/-- The loops of two honest peers, each fed the frames of the other, from
the same round on. -/
theorem gameLoop_mirror (scriptA scriptB : List (GoString × Choice))
    (hlen : scriptA.length = scriptB.length)
    (hA : ∀ q ∈ scriptA, (44 : UInt8) ∉ q.1 ∧ q.2.valid)
    (hB : ∀ q ∈ scriptB, (44 : UInt8) ∉ q.1 ∧ q.2.valid) :
    ∀ (n k rc wA wB : Nat) (tA tB : List Event),
      scriptA.length - k ≤ n → k ≤ scriptA.length → rc ≤ MAX_ROUNDS → wA + wB = rc →
      scoredRounds tB = (scoredRounds tA).map (fun p => (p.1, mirror p.2)) →
      (gameLoop (drawsOf scriptA) (opponentFrames (scriptB.drop k)) k rc wA tA).roundCount
        = (gameLoop (drawsOf scriptB) (opponentFrames (scriptA.drop k)) k rc wB tB).roundCount ∧
      (gameLoop (drawsOf scriptA) (opponentFrames (scriptB.drop k)) k rc wA tA).winCount
        + (gameLoop (drawsOf scriptB) (opponentFrames (scriptA.drop k)) k rc wB tB).winCount
        = (gameLoop (drawsOf scriptA) (opponentFrames (scriptB.drop k)) k rc wA tA).roundCount ∧
      scoredRounds (gameLoop (drawsOf scriptB) (opponentFrames (scriptA.drop k)) k rc wB tB).trace
        = (scoredRounds
            (gameLoop (drawsOf scriptA) (opponentFrames (scriptB.drop k)) k rc wA tA).trace).map
            (fun p => (p.1, mirror p.2)) ∧
      (((gameLoop (drawsOf scriptA) (opponentFrames (scriptB.drop k)) k rc wA tA).outcome
            = .blocked ∧
          (gameLoop (drawsOf scriptB) (opponentFrames (scriptA.drop k)) k rc wB tB).outcome
            = .blocked) ∨
        ((gameLoop (drawsOf scriptA) (opponentFrames (scriptB.drop k)) k rc wA tA).roundCount
            = MAX_ROUNDS ∧
          (gameLoop (drawsOf scriptA) (opponentFrames (scriptB.drop k)) k rc wA tA).outcome
            = .declared (declare
              (gameLoop (drawsOf scriptA) (opponentFrames (scriptB.drop k)) k rc wA tA).winCount) ∧
          (gameLoop (drawsOf scriptB) (opponentFrames (scriptA.drop k)) k rc wB tB).outcome
            = .declared (declare
              (gameLoop (drawsOf scriptB) (opponentFrames (scriptA.drop k)) k rc wB
                tB).winCount))) := by
  intro n
  induction n with
  | zero =>
    intro k rc wA wB tA tB hn hk hrc hw ht
    have hkA : scriptA.drop k = [] := List.drop_eq_nil_of_le (by omega)
    have hkB : scriptB.drop k = [] := List.drop_eq_nil_of_le (by omega)
    rw [hkA, hkB]
    by_cases hlt : rc < MAX_ROUNDS
    · simp only [opponentFrames, List.map_nil, roundFrames]
      rw [gameLoop, gameLoop]
      simp [hlt, scoredRounds_append, scoredRounds, ht, hw]
    · rw [gameLoop_done _ _ _ _ _ _ (by omega), gameLoop_done _ _ _ _ _ _ (by omega)]
      exact ⟨rfl, hw, ht, Or.inr ⟨by show rc = MAX_ROUNDS; omega, rfl, rfl⟩⟩
  | succ n ih =>
    intro k rc wA wB tA tB hn hk hrc hw ht
    by_cases hlt : rc < MAX_ROUNDS
    · by_cases hend : k = scriptA.length
      · have hkA : scriptA.drop k = [] := List.drop_eq_nil_of_le (by omega)
        have hkB : scriptB.drop k = [] := List.drop_eq_nil_of_le (by omega)
        rw [hkA, hkB]
        simp only [opponentFrames, List.map_nil, roundFrames]
        rw [gameLoop, gameLoop]
        simp [hlt, scoredRounds_append, scoredRounds, ht, hw]
      · have hkA : k < scriptA.length := by omega
        have hkB : k < scriptB.length := by omega
        have hqA := hA _ (List.get_mem scriptA k hkA)
        have hqB := hB _ (List.get_mem scriptB k hkB)
        have hvA := honestRound_verifies (scriptA.get ⟨k, hkA⟩) hqA.1 hqA.2
        have hvB := honestRound_verifies (scriptB.get ⟨k, hkB⟩) hqB.1 hqB.2
        simp only [honestRound] at hvA hvB
        rw [opponentFrames_drop scriptB k hkB, opponentFrames_drop scriptA k hkA,
          gameLoop_verified_round _ _ _ _ _ _ _ _ hlt hvB.1,
          gameLoop_verified_round _ _ _ _ _ _ _ _ hlt hvA.1,
          hvA.2, hvB.2, drawsOf_getElem scriptA k hkA, drawsOf_getElem scriptB k hkB]
        simp only
        have hm := analyzeResult_mirror (scriptA.get ⟨k, hkA⟩).2 (scriptB.get ⟨k, hkB⟩).2
          hqA.2 hqB.2
        have hc := analyzeResult_valid_cases (scriptA.get ⟨k, hkA⟩).2 (scriptB.get ⟨k, hkB⟩).2
          hqA.2 hqB.2
        rw [hm]
        generalize analyzeResult (scriptA.get ⟨k, hkA⟩).2 (scriptB.get ⟨k, hkB⟩).2 = res at hc
        have hWL : Win ≠ Lose := by decide
        have hWD : Win ≠ Draw := by decide
        have hLD : Lose ≠ Draw := by decide
        rcases hc with rfl | rfl | rfl
        · have e : mirror Draw = Draw := by decide
          rw [e]
          simp only [ne_eq, not_true_eq_false, if_false, hWD.symm]
          exact ih (k + 1) rc wA wB _ _ (by omega) (by omega) hrc hw
            (by simp [scoredRounds_append, scoredRounds, ht, e])
        · have e : mirror Win = Lose := by decide
          rw [e]
          simp only [ne_eq, hWD, hLD, not_false_eq_true, if_true, hWL.symm, if_false]
          exact ih (k + 1) (rc + 1) (wA + 1) wB _ _ (by omega) (by omega) (by omega) (by omega)
            (by simp [scoredRounds_append, scoredRounds, ht, e])
        · have e : mirror Lose = Win := by decide
          rw [e]
          simp only [ne_eq, hWD, hLD, not_false_eq_true, if_true, hWL, if_false]
          exact ih (k + 1) (rc + 1) wA (wB + 1) _ _ (by omega) (by omega) (by omega) (by omega)
            (by simp [scoredRounds_append, scoredRounds, ht, e])
    · rw [gameLoop_done _ _ _ _ _ _ (by omega), gameLoop_done _ _ _ _ _ _ (by omega)]
      exact ⟨rfl, hw, ht, Or.inr ⟨by show rc = MAX_ROUNDS; omega, rfl, rfl⟩⟩

/-- C18, two honest peers reach consistent, opposite verdicts: when peer A
plays the valid draws `scriptA` and peer B the valid draws `scriptB`, each
receiving the frames of the other, the rounds they score carry the same values
of `roundCount`, a Draw for one is a Draw for the other and a Win for one is a
Lose for the other, their round counters are equal, and either both still wait
for a frame or both have finished after the same round, with win counts that
add up to `MAX_ROUNDS` and exactly one declared Win. -/
theorem honest_peers_opposite_verdicts (scriptA scriptB : List (GoString × Choice))
    (hlen : scriptA.length = scriptB.length)
    (hA : ∀ q ∈ scriptA, (44 : UInt8) ∉ q.1 ∧ q.2.valid)
    (hB : ∀ q ∈ scriptB, (44 : UInt8) ∉ q.1 ∧ q.2.valid) :
    (mirror Draw = Draw ∧ mirror Win = Lose ∧ mirror Lose = Win) ∧
    scoredRounds (startGame (drawsOf scriptB) (opponentFrames scriptA)).trace
      = (scoredRounds (startGame (drawsOf scriptA) (opponentFrames scriptB)).trace).map
          (fun p => (p.1, mirror p.2)) ∧
    (startGame (drawsOf scriptA) (opponentFrames scriptB)).roundCount
      = (startGame (drawsOf scriptB) (opponentFrames scriptA)).roundCount ∧
    (((startGame (drawsOf scriptA) (opponentFrames scriptB)).outcome = .blocked ∧
        (startGame (drawsOf scriptB) (opponentFrames scriptA)).outcome = .blocked) ∨
      ((startGame (drawsOf scriptA) (opponentFrames scriptB)).roundCount = MAX_ROUNDS ∧
        (startGame (drawsOf scriptA) (opponentFrames scriptB)).winCount
          + (startGame (drawsOf scriptB) (opponentFrames scriptA)).winCount = MAX_ROUNDS ∧
        (((startGame (drawsOf scriptA) (opponentFrames scriptB)).outcome = .declared Win ∧
            (startGame (drawsOf scriptB) (opponentFrames scriptA)).outcome = .declared Lose) ∨
          ((startGame (drawsOf scriptA) (opponentFrames scriptB)).outcome = .declared Lose ∧
            (startGame (drawsOf scriptB) (opponentFrames scriptA)).outcome
              = .declared Win)))) := by
  have h := gameLoop_mirror scriptA scriptB hlen hA hB scriptA.length 0 0 0 0 [] []
    (by omega) (by omega) (by decide) rfl rfl
  simp only [List.drop_zero] at h
  obtain ⟨hrc, hw, hs, hout⟩ := h
  refine ⟨by decide, hs, hrc, ?_⟩
  unfold startGame
  rcases hout with ⟨ha, hb⟩ | ⟨hmax, ha, hb⟩
  · exact Or.inl ⟨ha, hb⟩
  · refine Or.inr ⟨hmax, by rw [hw, hmax], ?_⟩
    rw [ha, hb, declare_eq, declare_eq]
    rw [hmax] at hw
    have h5 : MAX_ROUNDS = 5 := rfl
    rw [h5] at hw ⊢
    by_cases hwin :
        5 / 2 < (gameLoop (drawsOf scriptA) (opponentFrames scriptB) 0 0 0 []).winCount
    · have hlose :
          ¬ 5 / 2 < (gameLoop (drawsOf scriptB) (opponentFrames scriptA) 0 0 0 []).winCount := by
        omega
      exact Or.inl ⟨by rw [if_pos hwin], by rw [if_neg hlose]⟩
    · have hwin' :
          5 / 2 < (gameLoop (drawsOf scriptB) (opponentFrames scriptA) 0 0 0 []).winCount := by
        omega
      exact Or.inr ⟨by rw [if_neg hwin], by rw [if_pos hwin']⟩

theorem honest_peers_opposite_verdicts_witness :
    (startGame
        (drawsOf [(ascii "a0", Rock), (ascii "a1", Paper), (ascii "a2", Scissors),
          (ascii "a3", Rock), (ascii "a4", Paper)])
        (opponentFrames (scenarioScript (fun _ => ascii "b")))).roundCount
      = (startGame (drawsOf (scenarioScript (fun _ => ascii "b")))
          (opponentFrames [(ascii "a0", Rock), (ascii "a1", Paper), (ascii "a2", Scissors),
            (ascii "a3", Rock), (ascii "a4", Paper)])).roundCount :=
  (honest_peers_opposite_verdicts
    [(ascii "a0", Rock), (ascii "a1", Paper), (ascii "a2", Scissors), (ascii "a3", Rock),
      (ascii "a4", Paper)]
    (scenarioScript (fun _ => ascii "b")) (by decide) (by decide) (by decide)).2.2.1

end Rps
